import Mathlib

/-!
Verification of the MCTS planner of the RobotArena repository.

The repository contains two variants of the same planner:
  * `src/bettergym/agents/planner_mcts.py`  (names below suffixed `P`)
  * `src/mcts_v2.py`                        (names below suffixed `V2`)

Modelling conventions used by the shallow embedding:
  * Environment states and actions are opaque type parameters `S`, `A`
    with decidable equality (states are dictionary keys in the source).
  * `numpy.float64` quantities produced by the UCB computation are
    modelled by the inductive type `F`: an exact rational together with
    the IEEE special values `+inf`, `-inf` and `NaN`.  The arithmetic on
    `F` (`fadd`, `fmulQ`, `fdivF`, `fmax2`, `feq`) follows IEEE-754
    semantics for those operations: `0/0 = NaN`, `x/0 = +-inf`,
    `0 * inf = NaN`, `inf + (-inf) = NaN`, `NaN` absorbs through `+`,
    `*` and `max` (numpy's `np.max` propagates NaN), and `NaN` compares
    unequal to everything including itself.
  * `np.sqrt` and `np.log` take irrational values on most rationals, so
    they are parameters of the planner configuration, constrained by the
    interfaces `SqrtSpec` and `LogSpec` which record exactly the IEEE
    facts the code relies on (`sqrt inf = inf`, `sqrt NaN = NaN`,
    `sqrt` of a nonnegative finite value is a nonnegative finite value,
    `log 0 = -inf`, `log n` is a nonnegative finite value for `n >= 1`).
    `sqrtD` and `logD` are concrete instances used to evaluate the
    development on closed inputs.
  * Exact rational arithmetic stands in for float arithmetic on rewards
    and accumulated returns (rounding is out of scope of the claims).
  * The global `np.random` source is modelled as an injected stream
    `rng : Nat -> Nat` with a cursor; `np.random.choice(l)` is `l` at
    position `rng cursor % l.length`, and raises (returns `none`) on an
    empty `l`, exactly as numpy does.
  * Python in-place mutation of the node objects stored in
    `id_to_state_node` is modelled by explicit functional updates of an
    association table keyed by the integer node ids.
  * Fallible code paths (a `KeyError`, an `IndexError`, numpy's
    `ValueError` on reducing or choosing from an empty array, and
    nontermination of a `while` loop) all surface as `none`.
-/

/-- Model of a `numpy.float64` value: an exact rational or one of the
IEEE special values. -/
inductive F : Type
  | fin (q : ℚ)
  | inf
  | ninf
  | nan
deriving DecidableEq, Repr

/-- IEEE addition on `F`.  `NaN` absorbs; `inf + -inf = NaN`. -/
def fadd : F → F → F
  | F.nan, _ => F.nan
  | _, F.nan => F.nan
  | F.inf, F.ninf => F.nan
  | F.ninf, F.inf => F.nan
  | F.inf, _ => F.inf
  | _, F.inf => F.inf
  | F.ninf, _ => F.ninf
  | _, F.ninf => F.ninf
  | F.fin a, F.fin b => F.fin (a + b)

/-- IEEE multiplication of a finite scalar by an `F` value.
`0 * inf = NaN`, matching numpy. -/
def fmulQ (c : ℚ) : F → F
  | F.nan => F.nan
  | F.inf => if 0 < c then F.inf else if c < 0 then F.ninf else F.nan
  | F.ninf => if 0 < c then F.ninf else if c < 0 then F.inf else F.nan
  | F.fin b => F.fin (c * b)

/-- IEEE division on `F`.  `0/0 = NaN`, `x/0 = +-inf` for `x != 0`
(zero denominators carry sign `+0` since rationals are unsigned),
`inf/inf = NaN`, `x/inf = 0`. -/
def fdivF : F → F → F
  | F.nan, _ => F.nan
  | _, F.nan => F.nan
  | F.fin a, F.fin b =>
      if b = 0 then (if 0 < a then F.inf else if a < 0 then F.ninf else F.nan)
      else F.fin (a / b)
  | F.inf, F.fin _ => F.inf
  | F.ninf, F.fin _ => F.ninf
  | F.fin _, F.inf => F.fin 0
  | F.fin _, F.ninf => F.fin 0
  | F.inf, F.inf => F.nan
  | F.inf, F.ninf => F.nan
  | F.ninf, F.inf => F.nan
  | F.ninf, F.ninf => F.nan

/-- IEEE equality test on `F` (numpy elementwise `==`):
`NaN` is unequal to everything, `inf == inf` holds. -/
def feq : F → F → Bool
  | F.nan, _ => false
  | _, F.nan => false
  | F.inf, F.inf => true
  | F.inf, _ => false
  | _, F.inf => false
  | F.ninf, F.ninf => true
  | F.ninf, _ => false
  | _, F.ninf => false
  | F.fin a, F.fin b => decide (a = b)

/-- Binary maximum on `F` following `np.maximum`: `NaN` propagates. -/
def fmax2 : F → F → F
  | F.nan, _ => F.nan
  | _, F.nan => F.nan
  | F.inf, _ => F.inf
  | _, F.inf => F.inf
  | F.ninf, x => x
  | x, F.ninf => x
  | F.fin a, F.fin b => F.fin (max a b)

/-- `np.max` of an array: `none` on an empty array (numpy raises a
`ValueError` there), otherwise the left fold of `np.maximum`. -/
def fmaxList : List F → Option F
  | [] => none
  | x :: t => some (t.foldl fmax2 x)

/-- Interface recording the IEEE facts about `np.sqrt` that the planner
relies on.  The actual value of the square root of a positive rational
is irrational, hence kept abstract. -/
structure SqrtSpec (sq : F → F) : Prop where
  inf_eq : sq F.inf = F.inf
  nan_eq : sq F.nan = F.nan
  fin_nonneg : ∀ q : ℚ, 0 ≤ q → ∃ y : ℚ, 0 ≤ y ∧ sq (F.fin q) = F.fin y

/-- Interface recording the IEEE facts about `np.log` on the natural
visit counters that the planner relies on. -/
structure LogSpec (lg : ℕ → F) : Prop where
  zero_eq : lg 0 = F.ninf
  pos_fin : ∀ n : ℕ, 1 ≤ n → ∃ y : ℚ, 0 ≤ y ∧ lg n = F.fin y

/-- The pair of transcendental primitives a planner instance carries. -/
structure FloatOps : Type where
  sqrt : F → F
  log : ℕ → F

/-- A concrete executable instance of the `sqrt` interface (the finite
values are placeholders permitted by `SqrtSpec`; no claim depends on
them). -/
def sqrtD : F → F
  | F.fin q => if q < 0 then F.nan else F.fin q
  | F.inf => F.inf
  | F.ninf => F.nan
  | F.nan => F.nan

/-- A concrete executable instance of the `log` interface
(`log 1 = 0` exactly; positive arguments give a nonnegative finite
placeholder permitted by `LogSpec`). -/
def logD : ℕ → F
  | 0 => F.ninf
  | _ + 1 => F.fin 0

/-- The concrete primitive pair used to evaluate closed instances. -/
def opsD : FloatOps := ⟨sqrtD, logD⟩

theorem sqrtD_spec : SqrtSpec sqrtD := by
  refine ⟨rfl, rfl, ?_⟩
  intro q hq
  exact ⟨q, hq, by simp [sqrtD, not_lt.mpr hq]⟩

theorem logD_spec : LogSpec logD := by
  refine ⟨rfl, ?_⟩
  intro n hn
  cases n with
  | zero => omega
  | succ m => exact ⟨0, le_refl 0, rfl⟩

theorem fmaxList_of_nan_mem {l : List F} (h : F.nan ∈ l) :
    fmaxList l = some F.nan := by
  cases l with
  | nil => simp at h
  | cons x t =>
    show some (t.foldl fmax2 x) = some F.nan
    have key : ∀ (t : List F) (a : F), (F.nan ∈ t ∨ a = F.nan) →
        t.foldl fmax2 a = F.nan := by
      intro t
      induction t with
      | nil =>
        intro a ha
        rcases ha with ha | ha
        · simp at ha
        · simpa using ha
      | cons y s ih =>
        intro a ha
        show s.foldl fmax2 (fmax2 a y) = F.nan
        rcases ha with ha | ha
        · rcases List.mem_cons.mp ha with hy | hs
          · subst hy
            exact ih _ (Or.inr (by cases a <;> simp [fmax2]))
          · exact ih _ (Or.inl hs)
        · subst ha
          exact ih _ (Or.inr (by cases y <;> simp [fmax2]))
    rcases List.mem_cons.mp h with hx | ht
    · exact congrArg some (key t x (Or.inr hx.symm))
    · exact congrArg some (key t x (Or.inl ht))

theorem fmaxList_of_inf_mem {l : List F} (hinf : F.inf ∈ l)
    (hnan : F.nan ∉ l) : fmaxList l = some F.inf := by
  cases l with
  | nil => simp at hinf
  | cons x t =>
    show some (t.foldl fmax2 x) = some F.inf
    have key : ∀ (t : List F) (a : F), F.nan ∉ t → a ≠ F.nan →
        (F.inf ∈ t ∨ a = F.inf) → t.foldl fmax2 a = F.inf := by
      intro t
      induction t with
      | nil =>
        intro a _ _ ha
        rcases ha with ha | ha
        · simp at ha
        · simpa using ha
      | cons y s ih =>
        intro a hnt hna ha
        show s.foldl fmax2 (fmax2 a y) = F.inf
        have hyn : y ≠ F.nan := fun h => hnt (by simp [h])
        have hns : F.nan ∉ s := fun h => hnt (by simp [h])
        have hstep : fmax2 a y ≠ F.nan := by
          cases a <;> cases y <;> simp_all [fmax2]
        rcases ha with hmem | ha
        · rcases List.mem_cons.mp hmem with hy | hs
          · subst hy
            refine ih _ hns hstep (Or.inr ?_)
            cases a <;> simp_all [fmax2]
          · exact ih _ hns hstep (Or.inl hs)
        · subst ha
          refine ih _ hns hstep (Or.inr ?_)
          cases y <;> simp_all [fmax2]
    have hxn : x ≠ F.nan := fun h => hnan (by simp [h])
    have hnt : F.nan ∉ t := fun h => hnan (by simp [h])
    rcases List.mem_cons.mp hinf with hx | ht
    · exact congrArg some (key t x hnt hxn (Or.inr hx.symm))
    · exact congrArg some (key t x hnt hxn (Or.inl ht))

/-- Environment collaborator contract (`BetterGym` adapter): a legal
action enumerator and a pure transition function returning
`(next_state, reward, terminal)`. -/
structure BetterGym (S A : Type) : Type where
  getActions : S → List A
  step : S → A → S × ℚ × Bool

/-- `ActionNode`: one legal action of a state, with the per-action
transposition map `state_to_id` from observed successor states to node
ids. -/
structure ActionNode (S A : Type) : Type where
  action : A
  stateToId : List (S × ℤ)
deriving DecidableEq

/-- `StateNode`: one distinct simulated state, its ordered actions and
the parallel per-action statistics arrays. -/
structure StateNode (S A : Type) : Type where
  state : S
  id : ℤ
  actions : List (ActionNode S A)
  numVisitsActions : List ℕ
  aValues : List ℚ
  numVisits : ℕ
deriving DecidableEq

/-- `StateNode.__init__`: query the legal actions, build one
`ActionNode` per action with an empty successor map, and zero-size the
statistics arrays to the action count.  `num_visits` starts at 0.
There is no emptiness check on the action list in the source. -/
def mkStateNode (env : BetterGym S A) (s : S) (i : ℤ) : StateNode S A :=
  let acts := env.getActions s
  { state := s
    id := i
    actions := acts.map (fun a => ⟨a, []⟩)
    numVisitsActions := acts.map (fun _ => 0)
    aValues := acts.map (fun _ => 0)
    numVisits := 0 }

/-- Mutable planner state: the global node table `id_to_state_node`,
the id allocator cursor `last_id` (initially `-1`), and the injected
random stream with its cursor. -/
structure McState (S A : Type) : Type where
  table : List (ℤ × StateNode S A)
  lastId : ℤ
  rng : ℕ → ℕ
  rngIdx : ℕ

/-- Planner configuration, shared by both variants.  `rolloutPolicy`
receives the current state and the next random draw (the
`planner_mcts` variant's pluggable callable; the `mcts_v2` variant
ignores it and samples actions uniformly). -/
structure Mcts (S A : Type) : Type where
  numSim : ℕ
  c : ℚ
  env : BetterGym S A
  budget : ℕ
  discount : ℚ
  rolloutPolicy : S → ℕ → A
  ops : FloatOps

/-- Dictionary lookup in the global node table. -/
def lookupTable (st : McState S A) (i : ℤ) : Option (StateNode S A) :=
  match st.table.find? (fun p => decide (p.1 = i)) with
  | none => none
  | some p => some p.2

/-- Dictionary write to the global node table (replace or append). -/
def tableSet (st : McState S A) (i : ℤ) (nd : StateNode S A) : McState S A :=
  if (st.table.find? (fun p => decide (p.1 = i))).isSome then
    { st with table := st.table.map (fun p => if p.1 = i then (i, nd) else p) }
  else
    { st with table := st.table ++ [(i, nd)] }

/-- In-place mutation of the node object stored under id `i`. -/
def modifyNode (st : McState S A) (i : ℤ)
    (f : StateNode S A → StateNode S A) : McState S A :=
  { st with table := st.table.map (fun p => if p.1 = i then (p.1, f p.2) else p) }

/-- Lookup in a per-action transposition map (`dict.get`). -/
def mapLookup [DecidableEq S] (m : List (S × ℤ)) (s : S) : Option ℤ :=
  match m.find? (fun p => decide (p.1 = s)) with
  | none => none
  | some p => some p.2

/-- Write to a per-action transposition map (replace or append). -/
def mapSet [DecidableEq S] (m : List (S × ℤ)) (s : S) (j : ℤ) : List (S × ℤ) :=
  if (m.find? (fun p => decide (p.1 = s))).isSome then
    m.map (fun p => if p.1 = s then (s, j) else p)
  else
    m ++ [(s, j)]

/-- One draw from the injected random stream. -/
def draw (st : McState S A) : ℕ × McState S A :=
  (st.rng st.rngIdx, { st with rngIdx := st.rngIdx + 1 })

/-- `np.random.choice` over a list: uniform selection driven by the
injected stream, raising (`none`) on an empty list. -/
def choice (l : List α) (st : McState S A) : Option (α × McState S A) :=
  if h : l.length = 0 then none
  else
    let (k, st') := draw st
    some (l.get ⟨k % l.length, Nat.mod_lt _ (Nat.pos_of_ne_zero h)⟩, st')

/-- `node.num_visits += 1`. -/
def bumpVisits (st : McState S A) (i : ℤ) : McState S A :=
  modifyNode st i (fun nd => { nd with numVisits := nd.numVisits + 1 })

/-- `node.num_visits_actions[k] += 1`. -/
def bumpCount (st : McState S A) (i : ℤ) (k : ℕ) : McState S A :=
  modifyNode st i (fun nd =>
    { nd with numVisitsActions :=
        nd.numVisitsActions.set k (nd.numVisitsActions.getD k 0 + 1) })

/-- `node.a_values[k] += v` (the backpropagation write). -/
def addVal (st : McState S A) (i : ℤ) (k : ℕ) (v : ℚ) : McState S A :=
  modifyNode st i (fun nd =>
    { nd with aValues := nd.aValues.set k (nd.aValues.getD k 0 + v) })

/-- `action_node.state_to_id[s] = j` on action `k` of a node's action
list. -/
def setBinding [DecidableEq S] (acts : List (ActionNode S A)) (k : ℕ)
    (s : S) (j : ℤ) : List (ActionNode S A) :=
  match acts.get? k with
  | none => acts
  | some an => acts.set k { an with stateToId := mapSet an.stateToId s j }

/-- `np.flatnonzero(scores == np.max(scores))`: the indices achieving
the array maximum under IEEE equality (empty when the maximum is NaN). -/
def maxIdxList (scores : List F) (m : F) : List ℕ :=
  (List.range scores.length).filter (fun i => feq (scores.getD i F.nan) m)

/-- Maximum computation followed by the uniform random tie-break;
`none` models the `ValueError` numpy raises when reducing or choosing
from an empty array. -/
def pickIdx (scores : List F) (st : McState S A) :
    Option (ℕ × McState S A) :=
  match fmaxList scores with
  | none => none
  | some m => choice (maxIdxList scores m) st

/-- UCB scores of the `planner_mcts` variant: both divisions are the
masked `np.divide(..., out=np.full_like(..., np.inf), where=n != 0)`,
so a zero-visit entry reads `inf` directly from the prefilled output;
the bonus multiplies `c` by the square root afterwards.  Arrays are
elementwise over the action index range (the parallel arrays of a
`StateNode` have equal length by construction). -/
def ucbScoresP (ops : FloatOps) (c : ℚ) (nVisits : ℕ)
    (counts : List ℕ) (avals : List ℚ) : List F :=
  (List.range counts.length).map (fun i =>
    let n := counts.getD i 0
    let q := if n ≠ 0 then F.fin (avals.getD i 0 / (n : ℚ)) else F.inf
    let inner := if n ≠ 0 then fdivF (ops.log nVisits) (F.fin (n : ℚ)) else F.inf
    fadd q (fmulQ c (ops.sqrt inner)))

/-- UCB scores of the `mcts_v2` variant: plain elementwise division
(`0/0 = NaN`, `x/0 = +-inf`), then the patch
`ucb_scores[np.isnan(ucb_scores)] = np.inf`. -/
def ucbScoresV2 (ops : FloatOps) (c : ℚ) (nVisits : ℕ)
    (counts : List ℕ) (avals : List ℚ) : List F :=
  (List.range counts.length).map (fun i =>
    let n := counts.getD i 0
    let q := fdivF (F.fin (avals.getD i 0)) (F.fin (n : ℚ))
    let bonus := fmulQ c (ops.sqrt (fdivF (ops.log nVisits) (F.fin (n : ℚ))))
    let raw := fadd q bonus
    if raw = F.nan then F.inf else raw)

/-- Rollout loop of the `planner_mcts` variant
(`while not terminal and curr_depth + starting_depth != budget`), as a
fuel-indexed recursion: `k` is `starting_depth`, `acc` the running
discounted total.  Fuel exhaustion (`none`) models the loop never
reaching the `==`-style budget test, which in the source loops for as
long as the environment stays nonterminal. -/
def rolloutAuxP (M : Mcts S A) :
    ℕ → S → ℕ → ℕ → ℚ → McState S A → McState S A × Option ℚ
  | 0, _, _, _, _, st => (st, none)
  | fuel + 1, s, currDepth, k, acc, st =>
    if currDepth + k = M.budget then (st, some acc)
    else
      let (n, st1) := draw st
      let a := M.rolloutPolicy s n
      let (s', r, term) := M.env.step s a
      let acc' := acc + r * M.discount ^ k
      if term then (st1, some acc')
      else rolloutAuxP M fuel s' currDepth (k + 1) acc' st1

/-- `Mcts.rollout(state, curr_depth)` of the `planner_mcts` variant. -/
def rolloutP (M : Mcts S A) (s : S) (currDepth : ℕ) (st : McState S A) :
    McState S A × Option ℚ :=
  rolloutAuxP M (M.budget + 1) s currDepth 0 0 st

/-- Rollout loop of the `mcts_v2` variant
(`while not terminal and budget != 0`), recursing on the remaining
budget; the action is drawn uniformly from the legal actions and only
the LAST transition's reward `r` survives to the `return r`. -/
def rolloutAuxV2 (M : Mcts S A) :
    ℕ → S → ℚ → McState S A → McState S A × Option ℚ
  | 0, _, lastR, st => (st, some lastR)
  | b + 1, s, lastR, st =>
    match choice (M.env.getActions s) st with
    | none => (st, none)
    | some (a, st1) =>
      let (s', r, term) := M.env.step s a
      if term then (st1, some r)
      else rolloutAuxV2 M b s' r st1

/-- `Mcts.rollout(current_state)` of the `mcts_v2` variant
(`r` starts at 0). -/
def rolloutV2 (M : Mcts S A) (s : S) (st : McState S A) :
    McState S A × Option ℚ :=
  rolloutAuxV2 M M.budget s 0 st

/-- Leaf expansion shared by both variants: allocate `get_id()`,
create and register the successor's `StateNode`, record the new id in
the chosen action's `state_to_id`, and increment the fresh node's
`num_visits` (to 1).  Returns the updated state and the new id. -/
def registerLeaf [DecidableEq S] (M : Mcts S A) (st : McState S A)
    (stateId : ℤ) (k : ℕ) (s' : S) : McState S A × ℤ :=
  let newId := st.lastId + 1
  let st1 : McState S A := { st with lastId := newId }
  let st2 := tableSet st1 newId (mkStateNode M.env s' newId)
  let st3 := modifyNode st2 stateId
    (fun nd => { nd with actions := setBinding nd.actions k s' newId })
  (bumpVisits st3 newId, newId)

/-- `Mcts.simulate(state_id, depth)` of the `planner_mcts` variant.
Fuel bounds the recursion into already-known nodes; `none` covers the
error paths listed in the header.  The successor-not-found branch backs
up `r + discount * rollout`, the found-and-terminal branch returns 0
without touching `a_values`, the found-and-nonterminal branch recurses
and backs up `r + discount * downstream`. -/
def simulateP [DecidableEq S] (M : Mcts S A) :
    ℕ → ℤ → ℕ → McState S A → McState S A × Option ℚ
  | 0, _, _, st => (st, none)
  | fuel + 1, stateId, depth, st =>
    match lookupTable st stateId with
    | none => (st, none)
    | some node0 =>
      let st1 := bumpVisits st stateId
      let scores := ucbScoresP M.ops M.c (node0.numVisits + 1)
        node0.numVisitsActions node0.aValues
      match pickIdx scores st1 with
      | none => (st1, none)
      | some (i, st2) =>
        match node0.actions.get? i with
        | none => (st2, none)
        | some actNode =>
          let st3 := bumpCount st2 stateId i
          let (s', r, term) := M.env.step node0.state actNode.action
          match mapLookup actNode.stateToId s' with
          | none =>
            let st4 := (registerLeaf M st3 stateId i s').1
            match rolloutAuxP M (M.budget + 1) s' (depth + 1) 0 0 st4 with
            | (st5, none) => (st5, none)
            | (st5, some rv) =>
              let tot := r + M.discount * rv
              (addVal st5 stateId i tot, some tot)
          | some j =>
            if term then (st3, some 0)
            else
              match simulateP M fuel j (depth + 1) st3 with
              | (st6, none) => (st6, none)
              | (st6, some dv) =>
                let tot := r + M.discount * dv
                (addVal st6 stateId i tot, some tot)

/-- `Mcts.simulate(state_id)` of the `mcts_v2` variant.  Differs from
the planner variant in the UCB computation, in taking no depth
parameter, and in the backed-up values: the leaf branch backs up
`discount * rollout` (without the immediate reward) and the
found-and-nonterminal branch backs up `discount * downstream`. -/
def simulateV2 [DecidableEq S] (M : Mcts S A) :
    ℕ → ℤ → McState S A → McState S A × Option ℚ
  | 0, _, st => (st, none)
  | fuel + 1, stateId, st =>
    match lookupTable st stateId with
    | none => (st, none)
    | some node0 =>
      let st1 := bumpVisits st stateId
      let scores := ucbScoresV2 M.ops M.c (node0.numVisits + 1)
        node0.numVisitsActions node0.aValues
      match pickIdx scores st1 with
      | none => (st1, none)
      | some (i, st2) =>
        match node0.actions.get? i with
        | none => (st2, none)
        | some actNode =>
          let st3 := bumpCount st2 stateId i
          let (s', r, term) := M.env.step node0.state actNode.action
          match mapLookup actNode.stateToId s' with
          | none =>
            let st4 := (registerLeaf M st3 stateId i s').1
            match rolloutV2 M s' st4 with
            | (st5, none) => (st5, none)
            | (st5, some rv) =>
              let tot := M.discount * rv
              (addVal st5 stateId i tot, some tot)
          | some j =>
            if term then (st3, some 0)
            else
              match simulateV2 M fuel j st3 with
              | (st6, none) => (st6, none)
              | (st6, some dv) =>
                let tot := M.discount * dv
                (addVal st6 stateId i tot, some tot)

/-- The `for sn in range(num_sim)` driver loop of `plan`: each
iteration is one full `simulate` traversal from the root; a raised
exception inside a traversal (`none`) aborts the loop (flag `false`). -/
def runSimsP [DecidableEq S] (M : Mcts S A) (fuel : ℕ) (rootId : ℤ) :
    ℕ → McState S A → McState S A × Bool
  | 0, st => (st, true)
  | n + 1, st =>
    match simulateP M fuel rootId 0 st with
    | (st', none) => (st', false)
    | (st', some _) => runSimsP M fuel rootId n st'

/-- Root empirical means `a_values / num_visits_actions` computed by
`plan` (plain elementwise division in both variants: a never-visited
action yields `0/0 = NaN`). -/
def qValsRoot (root : StateNode S A) : List F :=
  (List.range root.numVisitsActions.length).map (fun i =>
    fdivF (F.fin (root.aValues.getD i 0))
      (F.fin ((root.numVisitsActions.getD i 0 : ℕ) : ℚ)))

/-- `Mcts.plan(initial_state)` of the `planner_mcts` variant, modulo
the diagnostics dictionary (trajectory bookkeeping carries no claim
content): allocate a fresh root id, create and register the root
`StateNode`, run `num_sim` simulations from it, then pick uniformly
among the actions of maximal empirical mean. -/
def planP [DecidableEq S] (M : Mcts S A) (fuel : ℕ) (s0 : S)
    (st : McState S A) : McState S A × Option A :=
  let rootId := st.lastId + 1
  let stR := tableSet { st with lastId := rootId } rootId
    (mkStateNode M.env s0 rootId)
  match runSimsP M fuel rootId M.numSim stR with
  | (st1, false) => (st1, none)
  | (st1, true) =>
    match lookupTable st1 rootId with
    | none => (st1, none)
    | some root =>
      match pickIdx (qValsRoot root) st1 with
      | none => (st1, none)
      | some (i, st2) =>
        match root.actions.get? i with
        | none => (st2, none)
        | some an => (st2, some an.action)

theorem lookupTable_modifyNode (st : McState S A) (i : ℤ)
    (f : StateNode S A → StateNode S A) (j : ℤ) :
    lookupTable (modifyNode st i f) j =
      if j = i then (lookupTable st j).map f else lookupTable st j := by
  have hkey : ∀ p : ℤ × StateNode S A,
      (if p.1 = i then (p.1, f p.2) else p).1 = p.1 := by
    intro p
    by_cases h : p.1 = i <;> simp [h]
  unfold lookupTable modifyNode
  simp only [List.find?_map]
  have hpred : (fun p : ℤ × StateNode S A => decide (p.1 = j)) ∘
      (fun p => if p.1 = i then (p.1, f p.2) else p) =
      (fun p : ℤ × StateNode S A => decide (p.1 = j)) := by
    funext p
    simp [hkey p]
  rw [hpred]
  cases hf : st.table.find? (fun p => decide (p.1 = j)) with
  | none => simp [hf]
  | some p =>
    have hpj : p.1 = j := by
      have := List.find?_some hf
      simpa using this
    by_cases hji : j = i
    · simp [hf, hpj, hji]
    · have : ¬ p.1 = i := by rw [hpj]; exact hji
      simp [hf, this, hji]

theorem lookupTable_tableSet (st : McState S A) (i : ℤ)
    (nd : StateNode S A) (j : ℤ) :
    lookupTable (tableSet st i nd) j =
      if j = i then some nd else lookupTable st j := by
  have hkey : ∀ p : ℤ × StateNode S A,
      (if p.1 = i then (i, nd) else p).1 = p.1 := by
    intro p
    by_cases h : p.1 = i <;> simp [h]
  unfold lookupTable tableSet
  by_cases hmem : (st.table.find? (fun p => decide (p.1 = i))).isSome
  · rw [if_pos hmem]
    simp only [List.find?_map]
    have hpred : (fun p : ℤ × StateNode S A => decide (p.1 = j)) ∘
        (fun p => if p.1 = i then (i, nd) else p) =
        (fun p : ℤ × StateNode S A => decide (p.1 = j)) := by
      funext p
      simp [hkey p]
    rw [hpred]
    by_cases hji : j = i
    · subst hji
      cases hp : st.table.find? (fun p => decide (p.1 = j)) with
      | none => rw [hp] at hmem; simp at hmem
      | some p =>
        have hpj : p.1 = j := by simpa using List.find?_some hp
        simp [hp, hpj]
    · cases hf : st.table.find? (fun p => decide (p.1 = j)) with
      | none => simp [hf, hji]
      | some p =>
        have hpj : p.1 = j := by simpa using List.find?_some hf
        have : ¬ p.1 = i := by rw [hpj]; exact hji
        simp [hf, this, hji]
  · rw [if_neg hmem]
    show (match List.find? (fun p => decide (p.1 = j)) (st.table ++ [(i, nd)]) with
        | none => none
        | some p => some p.2) = _
    rw [List.find?_append]
    by_cases hji : j = i
    · subst hji
      have hn : st.table.find? (fun p => decide (p.1 = j)) = none :=
        Option.not_isSome_iff_eq_none.mp hmem
      simp [hn]
    · have hij : ¬ i = j := fun h => hji h.symm
      cases hf : st.table.find? (fun p => decide (p.1 = j)) with
      | none => simp [hf, hij, hji]
      | some p => simp [hf, hji]

theorem modifyNode_lastId (st : McState S A) (i : ℤ) (f) :
    (modifyNode st i f).lastId = st.lastId := rfl

theorem modifyNode_rng (st : McState S A) (i : ℤ) (f) :
    (modifyNode st i f).rng = st.rng ∧ (modifyNode st i f).rngIdx = st.rngIdx :=
  ⟨rfl, rfl⟩

theorem tableSet_lastId (st : McState S A) (i : ℤ) (nd) :
    (tableSet st i nd).lastId = st.lastId := by
  unfold tableSet
  by_cases h : (st.table.find? (fun p => decide (p.1 = i))).isSome <;> simp [h]

theorem choice_some {l : List α} {st st' : McState S A} {a : α}
    (h : choice l st = some (a, st')) :
    st'.table = st.table ∧ st'.lastId = st.lastId ∧ a ∈ l := by
  unfold choice at h
  by_cases hl : l.length = 0
  · rw [dif_pos hl] at h
    exact absurd h (by simp)
  · rw [dif_neg hl] at h
    simp only [draw, Option.some.injEq, Prod.mk.injEq] at h
    obtain ⟨ha, hst⟩ := h
    subst hst
    exact ⟨rfl, rfl, ha ▸ List.get_mem _ _ _⟩

theorem pickIdx_some {scores : List F} {st st' : McState S A} {i : ℕ}
    (h : pickIdx scores st = some (i, st')) :
    st'.table = st.table ∧ st'.lastId = st.lastId ∧ i < scores.length := by
  unfold pickIdx at h
  cases hm : fmaxList scores with
  | none => rw [hm] at h; exact absurd h (by simp)
  | some m =>
    rw [hm] at h
    obtain ⟨ht, hl, hmem⟩ := choice_some h
    refine ⟨ht, hl, ?_⟩
    simp only [maxIdxList, List.mem_filter, List.mem_range] at hmem
    exact hmem.1

theorem rolloutAuxP_frame (M : Mcts S A) :
    ∀ (fuel : ℕ) (s : S) (cd k : ℕ) (acc : ℚ) (st : McState S A),
      ((rolloutAuxP M fuel s cd k acc st).1).table = st.table ∧
      ((rolloutAuxP M fuel s cd k acc st).1).lastId = st.lastId := by
  intro fuel
  induction fuel with
  | zero => intro s cd k acc st; exact ⟨rfl, rfl⟩
  | succ n ih =>
    intro s cd k acc st
    unfold rolloutAuxP
    by_cases hb : cd + k = M.budget
    · simp [hb]
    · rw [if_neg hb]
      simp only [draw]
      rcases hstep : M.env.step s (M.rolloutPolicy s (st.rng st.rngIdx)) with ⟨s', r, term⟩
      simp only [hstep]
      cases term with
      | true => simp
      | false =>
        simpa using ih s' cd (k + 1) (acc + r * M.discount ^ k)
          { st with rngIdx := st.rngIdx + 1 }

theorem rolloutAuxV2_frame (M : Mcts S A) :
    ∀ (b : ℕ) (s : S) (lastR : ℚ) (st : McState S A),
      ((rolloutAuxV2 M b s lastR st).1).table = st.table ∧
      ((rolloutAuxV2 M b s lastR st).1).lastId = st.lastId := by
  intro b
  induction b with
  | zero => intro s lastR st; exact ⟨rfl, rfl⟩
  | succ n ih =>
    intro s lastR st
    unfold rolloutAuxV2
    cases hc : choice (M.env.getActions s) st with
    | none => simp [hc]
    | some p =>
      obtain ⟨a, st1⟩ := p
      obtain ⟨ht, hl, -⟩ := choice_some hc
      simp only [hc]
      rcases hstep : M.env.step s a with ⟨s', r, term⟩
      cases term with
      | true => simp [hstep, ht, hl]
      | false =>
        have := ih s' r st1
        simp only [hstep]
        simpa [ht, hl] using this

theorem lookupTable_eq_of_table {st st' : McState S A}
    (h : st.table = st'.table) (j : ℤ) :
    lookupTable st j = lookupTable st' j := by
  unfold lookupTable
  rw [h]

/-- C1 (amended): in every `simulate` call whose transition is terminal
and whose successor is already a key of the chosen action's
`state_to_id`, the traversal's backed-up value is 0 — not the immediate
reward, which is discarded — and `a_values[action_idx]` is left
untouched; no new node is allocated.  The discount factor and the
statistics stored for the successor node `j` are arbitrary here, so the
outcome is independent of both. -/
theorem simulateP_found_terminal [DecidableEq S] (M : Mcts S A)
    (fuel depth : ℕ) (stateId : ℤ) (st st2 : McState S A)
    (node0 : StateNode S A) (i : ℕ) (actNode : ActionNode S A)
    (s' : S) (r : ℚ) (j : ℤ)
    (h1 : lookupTable st stateId = some node0)
    (h2 : pickIdx (ucbScoresP M.ops M.c (node0.numVisits + 1)
      node0.numVisitsActions node0.aValues) (bumpVisits st stateId) =
      some (i, st2))
    (h3 : node0.actions.get? i = some actNode)
    (h4 : M.env.step node0.state actNode.action = (s', r, true))
    (h5 : mapLookup actNode.stateToId s' = some j) :
    simulateP M (fuel + 1) stateId depth st = (bumpCount st2 stateId i, some 0) ∧
    (lookupTable (simulateP M (fuel + 1) stateId depth st).1 stateId).map
      (fun nd => nd.aValues) = some node0.aValues ∧
    (simulateP M (fuel + 1) stateId depth st).1.lastId = st.lastId := by
  have hmain : simulateP M (fuel + 1) stateId depth st =
      (bumpCount st2 stateId i, some 0) := by
    unfold simulateP
    simp only [h1, h2, h3, h5, h4, if_true]
  refine ⟨hmain, ?_, ?_⟩
  · rw [hmain]
    have htab : st2.table = (bumpVisits st stateId).table := (pickIdx_some h2).1
    have h6 : lookupTable (bumpCount st2 stateId i) stateId =
        (lookupTable st2 stateId).map (fun nd =>
          { nd with numVisitsActions :=
              nd.numVisitsActions.set i (nd.numVisitsActions.getD i 0 + 1) }) := by
      unfold bumpCount
      rw [lookupTable_modifyNode, if_pos rfl]
    have h7 : lookupTable st2 stateId = lookupTable (bumpVisits st stateId) stateId :=
      lookupTable_eq_of_table htab stateId
    have h8 : lookupTable (bumpVisits st stateId) stateId =
        (lookupTable st stateId).map (fun nd =>
          { nd with numVisits := nd.numVisits + 1 }) := by
      unfold bumpVisits
      rw [lookupTable_modifyNode, if_pos rfl]
    rw [h6, h7, h8, h1]
    rfl
  · rw [hmain]
    show (bumpCount st2 stateId i).lastId = st.lastId
    rw [show (bumpCount st2 stateId i).lastId = st2.lastId from rfl,
      (pickIdx_some h2).2.1]
    rfl

/-- Terminal toy environment used by the C1 analysis: a single action
everywhere; every transition moves to state 1 with reward 5 and
reports `terminal = true`. -/
def envT : BetterGym ℕ ℕ :=
  { getActions := fun _ => [0]
    step := fun _ _ => (1, 5, true) }

/-- Planner over `envT` with discount 1/2 (any nonzero discount would
expose a discount-dependent result if the immediate reward were backed
up). -/
def MT : Mcts ℕ ℕ :=
  { numSim := 1, c := 1, env := envT, budget := 3, discount := 1/2,
    rolloutPolicy := fun _ _ => 0, ops := opsD }

/-- Root node whose single action has already recorded successor state
1 under id 1 in its transposition map. -/
def ndT0 : StateNode ℕ ℕ :=
  { state := 0, id := 0, actions := [⟨0, [(1, 1)]⟩],
    numVisitsActions := [1], aValues := [2], numVisits := 1 }

/-- Successor node already present in the table, with a nonzero prior
stored value. -/
def ndT1 : StateNode ℕ ℕ :=
  { state := 1, id := 1, actions := [⟨0, []⟩],
    numVisitsActions := [0], aValues := [7], numVisits := 1 }

/-- Planner state with both nodes registered. -/
def stT : McState ℕ ℕ :=
  { table := [(0, ndT0), (1, ndT1)], lastId := 1,
    rng := fun _ => 0, rngIdx := 0 }

/-- C1, counterexample: on `stT` the transition taken is terminal with
immediate reward 5 and its successor is already in `state_to_id`, yet
`simulate` backs up 0, not the immediate reward 5, and the chosen
action's accumulated value stays at its prior 2. -/
theorem c1_terminal_reward_dropped :
    MT.env.step 0 0 = (1, 5, true) ∧
    (simulateP MT 5 0 0 stT).2 = some 0 ∧
    (lookupTable (simulateP MT 5 0 0 stT).1 0).map (fun nd => nd.aValues) =
      some [2] ∧
    ¬ (simulateP MT 5 0 0 stT).2 = some 5 := by
  refine ⟨by decide!, by decide!, by decide!, by decide!⟩

/-- The planner state after the visit bump and the tie-break draw of
the C1 scenario. -/
def stT2 : McState ℕ ℕ :=
  { table := [(0, { ndT0 with numVisits := 2 }), (1, ndT1)], lastId := 1,
    rng := fun _ => 0, rngIdx := 1 }

/-- C1, witness: the amended theorem applied to the concrete scenario
`stT`. -/
theorem c1_found_terminal_witness :
    simulateP MT 5 0 0 stT = (bumpCount stT2 0 0, some 0) ∧
    (lookupTable (simulateP MT 5 0 0 stT).1 0).map (fun nd => nd.aValues) =
      some ndT0.aValues ∧
    (simulateP MT 5 0 0 stT).1.lastId = stT.lastId :=
  simulateP_found_terminal MT 4 0 0 stT stT2 ndT0 0 ⟨0, [(1, 1)]⟩ 1 5 1
    (by with_unfolding_all rfl) (by with_unfolding_all rfl)
    (by with_unfolding_all rfl) (by with_unfolding_all rfl)
    (by with_unfolding_all rfl)

theorem getD_set_self {l : List α} {i : ℕ} (h : i < l.length) (a d : α) :
    (l.set i a).getD i d = a := by
  rw [List.getD_eq_getElem?_getD, List.getElem?_set_self (by simpa using h)]
  rfl

theorem get?_set_self {l : List α} {i : ℕ} (h : i < l.length) (a : α) :
    (l.set i a).get? i = some a := by
  rw [List.get?_eq_getElem?, List.getElem?_set_self (by simpa using h)]

/-- Characterization of the leaf-expansion bookkeeping: the allocator
moves to `last_id + 1`, the fresh node is registered there with
`num_visits = 1`, the creating node's chosen action gains the new
binding, and every other node is untouched. -/
theorem registerLeaf_spec [DecidableEq S] (M : Mcts S A) (st : McState S A)
    (stateId : ℤ) (i : ℕ) (s' : S) (node : StateNode S A)
    (hn : lookupTable st stateId = some node) (hne : stateId ≠ st.lastId + 1) :
    ((registerLeaf M st stateId i s').1).lastId = st.lastId + 1 ∧
    lookupTable (registerLeaf M st stateId i s').1 (st.lastId + 1) =
      some { mkStateNode M.env s' (st.lastId + 1) with numVisits := 1 } ∧
    lookupTable (registerLeaf M st stateId i s').1 stateId =
      some { node with actions := setBinding node.actions i s' (st.lastId + 1) } ∧
    ∀ k, k ≠ stateId → k ≠ st.lastId + 1 →
      lookupTable (registerLeaf M st stateId i s').1 k = lookupTable st k := by
  have hne' : ¬ (st.lastId + 1 = stateId) := fun h => hne h.symm
  unfold registerLeaf bumpVisits
  refine ⟨by rw [modifyNode_lastId, modifyNode_lastId, tableSet_lastId], ?_, ?_, ?_⟩
  · rw [lookupTable_modifyNode, if_pos rfl, lookupTable_modifyNode, if_neg hne',
      lookupTable_tableSet, if_pos rfl]
    rfl
  · rw [lookupTable_modifyNode, if_neg hne, lookupTable_modifyNode, if_pos rfl,
      lookupTable_tableSet, if_neg hne]
    have : lookupTable { st with lastId := st.lastId + 1 } stateId =
        lookupTable st stateId := rfl
    rw [this, hn]
    rfl
  · intro k hk1 hk2
    rw [lookupTable_modifyNode, if_neg hk2, lookupTable_modifyNode, if_neg hk1,
      lookupTable_tableSet, if_neg hk2]
    rfl

/-- C2: in every `planner_mcts` `simulate` call whose sampled successor
is not yet a key of the chosen action's `state_to_id`, the engine
allocates the id `last_id + 1`, registers a `StateNode` for the
successor there with `num_visits = 1`, records the binding in
`state_to_id`, invokes the rollout, accumulates the total into the
current node's `a_values[action_idx]`, and returns
`reward + discount * rollout_value` (the reward-accumulating variant). -/
theorem simulateP_expand_leaf [DecidableEq S] (M : Mcts S A)
    (fuel depth : ℕ) (stateId : ℤ) (st st2 st5 : McState S A)
    (node0 : StateNode S A) (i : ℕ) (actNode : ActionNode S A)
    (s' : S) (r : ℚ) (term : Bool) (rv : ℚ)
    (h1 : lookupTable st stateId = some node0)
    (h2 : pickIdx (ucbScoresP M.ops M.c (node0.numVisits + 1)
      node0.numVisitsActions node0.aValues) (bumpVisits st stateId) =
      some (i, st2))
    (h3 : node0.actions.get? i = some actNode)
    (h4 : M.env.step node0.state actNode.action = (s', r, term))
    (h5 : mapLookup actNode.stateToId s' = none)
    (h6 : rolloutAuxP M (M.budget + 1) s' (depth + 1) 0 0
      ((registerLeaf M (bumpCount st2 stateId i) stateId i s').1) =
      (st5, some rv))
    (hid : stateId ≠ st.lastId + 1)
    (hlen : i < node0.aValues.length) :
    simulateP M (fuel + 1) stateId depth st =
      (addVal st5 stateId i (r + M.discount * rv),
        some (r + M.discount * rv)) ∧
    (simulateP M (fuel + 1) stateId depth st).1.lastId = st.lastId + 1 ∧
    lookupTable (simulateP M (fuel + 1) stateId depth st).1 (st.lastId + 1) =
      some { mkStateNode M.env s' (st.lastId + 1) with numVisits := 1 } ∧
    (∃ nd, lookupTable (simulateP M (fuel + 1) stateId depth st).1 stateId =
      some nd ∧
      nd.actions.get? i =
        some { actNode with
          stateToId := mapSet actNode.stateToId s' (st.lastId + 1) } ∧
      nd.aValues.getD i 0 =
        node0.aValues.getD i 0 + (r + M.discount * rv)) := by
  have hmain : simulateP M (fuel + 1) stateId depth st =
      (addVal st5 stateId i (r + M.discount * rv),
        some (r + M.discount * rv)) := by
    unfold simulateP
    simp only [h1, h2, h3, h4, h5, h6]
  -- state bookkeeping facts along the execution chain
  have hst2tab : st2.table = (bumpVisits st stateId).table := (pickIdx_some h2).1
  have hst2last : st2.lastId = st.lastId := by
    rw [(pickIdx_some h2).2.1]
    rfl
  have hst3 : lookupTable (bumpCount st2 stateId i) stateId =
      some { node0 with
        numVisits := node0.numVisits + 1
        numVisitsActions := node0.numVisitsActions.set i
          (node0.numVisitsActions.getD i 0 + 1) } := by
    unfold bumpCount
    rw [lookupTable_modifyNode, if_pos rfl,
      lookupTable_eq_of_table hst2tab]
    unfold bumpVisits
    rw [lookupTable_modifyNode, if_pos rfl, h1]
    rfl
  have hst3last : (bumpCount st2 stateId i).lastId = st.lastId := by
    unfold bumpCount
    rw [modifyNode_lastId, hst2last]
  obtain ⟨hRlast, hRnew, hRme, hRother⟩ :=
    registerLeaf_spec M (bumpCount st2 stateId i) stateId i s' _ hst3
      (by rw [hst3last]; exact hid)
  rw [hst3last] at hRlast hRnew hRme
  have hfr := rolloutAuxP_frame M (M.budget + 1) s' (depth + 1) 0 0
    ((registerLeaf M (bumpCount st2 stateId i) stateId i s').1)
  rw [h6] at hfr
  have hne' : ¬ (st.lastId + 1 = stateId) := fun h => hid h.symm
  refine ⟨hmain, ?_, ?_, ?_⟩
  · rw [hmain]
    show (addVal st5 stateId i (r + M.discount * rv)).lastId = st.lastId + 1
    unfold addVal
    rw [modifyNode_lastId, hfr.2, hRlast]
  · rw [hmain]
    show lookupTable (addVal st5 stateId i (r + M.discount * rv)) (st.lastId + 1) = _
    unfold addVal
    rw [lookupTable_modifyNode, if_neg hne',
      lookupTable_eq_of_table hfr.1, hRnew]
  · rw [hmain]
    obtain ⟨hilt, -⟩ := List.get?_eq_some.mp h3
    refine ⟨{ node0 with
        numVisits := node0.numVisits + 1
        numVisitsActions := node0.numVisitsActions.set i
          (node0.numVisitsActions.getD i 0 + 1)
        actions := setBinding node0.actions i s' (st.lastId + 1)
        aValues := node0.aValues.set i
          (node0.aValues.getD i 0 + (r + M.discount * rv)) }, ?_, ?_, ?_⟩
    · show lookupTable (addVal st5 stateId i (r + M.discount * rv)) stateId = _
      unfold addVal
      rw [lookupTable_modifyNode, if_pos rfl,
        lookupTable_eq_of_table hfr.1, hRme]
      rfl
    · show (setBinding node0.actions i s' (st.lastId + 1)).get? i = _
      unfold setBinding
      rw [h3]
      exact get?_set_self hilt _
    · show (node0.aValues.set i
        (node0.aValues.getD i 0 + (r + M.discount * rv))).getD i 0 = _
      exact getD_set_self hlen _ _

/-- Two-action environment where both actions from state 0 transition
to the same successor state 1 (with rewards 5 and 3); state 1 has a
single action leading terminally to itself with reward 0. -/
def envC3 : BetterGym ℕ ℕ :=
  { getActions := fun s => if s = 0 then [0, 1] else [0]
    step := fun s a => if s = 0 then (1, if a = 0 then 5 else 3, false)
      else (1, 0, true) }

/-- Planner over `envC3`, exploration constant 1, discount 1. -/
def MC3 : Mcts ℕ ℕ :=
  { numSim := 2, c := 1, env := envC3, budget := 5, discount := 1,
    rolloutPolicy := fun _ _ => 0, ops := opsD }

/-- Fresh planner state whose root (id 0) is the node of state 0. -/
def stC3 : McState ℕ ℕ :=
  { table := [(0, mkStateNode envC3 0 0)], lastId := 0,
    rng := fun _ => 0, rngIdx := 0 }

/-- `stC3` after the first traversal's visit bump and tie-break draw. -/
def stC3b : McState ℕ ℕ :=
  { table := [(0, { mkStateNode envC3 0 0 with numVisits := 1 })],
    lastId := 0, rng := fun _ => 0, rngIdx := 1 }

/-- Root node of the `envC3` run after the first leaf expansion
(action 0 taken once, successor registered under id 1). -/
def ndC3root1 : StateNode ℕ ℕ :=
  { state := 0, id := 0, actions := [⟨0, [(1, 1)]⟩, ⟨1, []⟩],
    numVisitsActions := [1, 0], aValues := [0, 0], numVisits := 1 }

/-- The fresh leaf node for state 1 created by the first traversal. -/
def ndC3n1 : StateNode ℕ ℕ :=
  { state := 1, id := 1, actions := [⟨0, []⟩],
    numVisitsActions := [0], aValues := [0], numVisits := 1 }

/-- The planner state right after the first traversal's leaf
registration and rollout (the rollout consumed one draw). -/
def stC3r5 : McState ℕ ℕ :=
  { table := [(0, ndC3root1), (1, ndC3n1)], lastId := 1,
    rng := fun _ => 0, rngIdx := 2 }

/-- C2, witness: the expansion theorem applied to the first traversal
of the fresh `envC3` planner state. -/
theorem c2_expand_leaf_witness :
    simulateP MC3 5 0 0 stC3 =
      (addVal stC3r5 0 0 (5 + MC3.discount * 0),
        some (5 + MC3.discount * 0)) ∧
    (simulateP MC3 5 0 0 stC3).1.lastId = stC3.lastId + 1 ∧
    lookupTable (simulateP MC3 5 0 0 stC3).1 (stC3.lastId + 1) =
      some { mkStateNode MC3.env 1 (stC3.lastId + 1) with numVisits := 1 } ∧
    (∃ nd, lookupTable (simulateP MC3 5 0 0 stC3).1 0 = some nd ∧
      nd.actions.get? 0 =
        some { (⟨0, []⟩ : ActionNode ℕ ℕ) with
          stateToId := mapSet [] 1 (stC3.lastId + 1) } ∧
      nd.aValues.getD 0 0 =
        (mkStateNode envC3 0 0).aValues.getD 0 0 + (5 + MC3.discount * 0)) :=
  simulateP_expand_leaf MC3 4 0 0 stC3 stC3b stC3r5 (mkStateNode envC3 0 0) 0
    ⟨0, []⟩ 1 5 false 0
    (by with_unfolding_all rfl) (by with_unfolding_all rfl)
    (by with_unfolding_all rfl) (by with_unfolding_all rfl)
    (by with_unfolding_all rfl) (by with_unfolding_all rfl)
    (by decide) (by decide!)

/-- State after one full traversal of the `envC3` planner. -/
def stC3one : McState ℕ ℕ := (simulateP MC3 10 0 0 stC3).1

/-- State after two full traversals (both root actions explored once). -/
def stC3two : McState ℕ ℕ := (simulateP MC3 10 0 0 stC3one).1

/-- State after three full traversals. -/
def stC3three : McState ℕ ℕ := (simulateP MC3 10 0 0 stC3two).1

/-- C3, counterexample: in `envC3` the two root actions both transition
to state 1; after both paths have been explored once the table holds
TWO distinct `StateNode`s (ids 1 and 2) for state 1 — the second path
did not reuse the first node's id, because `state_to_id` is scoped to a
single `ActionNode`. -/
theorem c3_duplicate_state_nodes :
    MC3.env.step 0 0 = (1, 5, false) ∧
    MC3.env.step 0 1 = (1, 3, false) ∧
    (lookupTable stC3two 0).map (fun nd => nd.numVisitsActions) =
      some [1, 1] ∧
    stC3two.lastId = 2 ∧
    (lookupTable stC3two 1).map (fun nd => nd.state) = some 1 ∧
    (lookupTable stC3two 2).map (fun nd => nd.state) = some 1 ∧
    (lookupTable stC3two 0).map
      (fun nd => nd.actions.map (fun an => an.stateToId)) =
      some [[(1, 1)], [(1, 2)]] := by
  refine ⟨by decide!, by decide!, by decide!, by decide!, by decide!,
    by decide!, by decide!⟩

/-- C3 (amended): transposition reuse is scoped to one `ActionNode`:
when a traversal selects an action whose `state_to_id` already contains
the sampled successor, the existing node's id is reused (here the third
traversal re-selects action 0, reaches state 1 again and recurses into
the existing node 1, whose visit count rises from 1 to 2, with no new
binding created for that pair), while two DIFFERENT actions reaching
the same state each create their own node (ids 1 and 2 of
`c3_duplicate_state_nodes`). -/
theorem c3_same_action_reuse :
    (lookupTable stC3two 0).map
      (fun nd => nd.actions.map (fun an => an.stateToId)) =
      some [[(1, 1)], [(1, 2)]] ∧
    (lookupTable stC3two 1).map (fun nd => nd.numVisits) = some 1 ∧
    (lookupTable stC3three 0).map (fun nd => nd.numVisitsActions) =
      some [2, 1] ∧
    (lookupTable stC3three 1).map (fun nd => nd.numVisits) = some 2 ∧
    (lookupTable stC3three 0).map
      (fun nd => nd.actions.map (fun an => an.stateToId)) =
      some [[(1, 1)], [(1, 2)]] := by
  refine ⟨by decide!, by decide!, by decide!, by decide!, by decide!⟩

/-- C10: in every `mcts_v2` `simulate` call whose transition reports
`terminal = true` but whose successor is NOT yet a key of the chosen
action's `state_to_id`, the terminal flag is ignored: the successor is
treated as a new leaf (a `StateNode` is created and registered for the
terminal state, with `num_visits = 1`), the rollout is invoked starting
from that terminal state, and the backed-up value is
`discount * rollout_value` rather than a value stopped at the immediate
reward. -/
theorem simulateV2_expand_terminal_leaf [DecidableEq S] (M : Mcts S A)
    (fuel : ℕ) (stateId : ℤ) (st st2 st5 : McState S A)
    (node0 : StateNode S A) (i : ℕ) (actNode : ActionNode S A)
    (s' : S) (r : ℚ) (rv : ℚ)
    (h1 : lookupTable st stateId = some node0)
    (h2 : pickIdx (ucbScoresV2 M.ops M.c (node0.numVisits + 1)
      node0.numVisitsActions node0.aValues) (bumpVisits st stateId) =
      some (i, st2))
    (h3 : node0.actions.get? i = some actNode)
    (h4 : M.env.step node0.state actNode.action = (s', r, true))
    (h5 : mapLookup actNode.stateToId s' = none)
    (h6 : rolloutV2 M s'
      ((registerLeaf M (bumpCount st2 stateId i) stateId i s').1) =
      (st5, some rv))
    (hid : stateId ≠ st.lastId + 1)
    (hlen : i < node0.aValues.length) :
    simulateV2 M (fuel + 1) stateId st =
      (addVal st5 stateId i (M.discount * rv), some (M.discount * rv)) ∧
    (simulateV2 M (fuel + 1) stateId st).1.lastId = st.lastId + 1 ∧
    lookupTable (simulateV2 M (fuel + 1) stateId st).1 (st.lastId + 1) =
      some { mkStateNode M.env s' (st.lastId + 1) with numVisits := 1 } ∧
    (∃ nd, lookupTable (simulateV2 M (fuel + 1) stateId st).1 stateId =
      some nd ∧
      nd.aValues.getD i 0 =
        node0.aValues.getD i 0 + M.discount * rv) := by
  have hmain : simulateV2 M (fuel + 1) stateId st =
      (addVal st5 stateId i (M.discount * rv), some (M.discount * rv)) := by
    unfold simulateV2
    simp only [h1, h2, h3, h4, h5, h6]
  have hst2tab : st2.table = (bumpVisits st stateId).table := (pickIdx_some h2).1
  have hst2last : st2.lastId = st.lastId := by
    rw [(pickIdx_some h2).2.1]
    rfl
  have hst3 : lookupTable (bumpCount st2 stateId i) stateId =
      some { node0 with
        numVisits := node0.numVisits + 1
        numVisitsActions := node0.numVisitsActions.set i
          (node0.numVisitsActions.getD i 0 + 1) } := by
    unfold bumpCount
    rw [lookupTable_modifyNode, if_pos rfl,
      lookupTable_eq_of_table hst2tab]
    unfold bumpVisits
    rw [lookupTable_modifyNode, if_pos rfl, h1]
    rfl
  have hst3last : (bumpCount st2 stateId i).lastId = st.lastId := by
    unfold bumpCount
    rw [modifyNode_lastId, hst2last]
  obtain ⟨hRlast, hRnew, hRme, hRother⟩ :=
    registerLeaf_spec M (bumpCount st2 stateId i) stateId i s' _ hst3
      (by rw [hst3last]; exact hid)
  rw [hst3last] at hRlast hRnew hRme
  have hfr := rolloutAuxV2_frame M M.budget s' 0
    ((registerLeaf M (bumpCount st2 stateId i) stateId i s').1)
  rw [show rolloutAuxV2 M M.budget s' 0
      ((registerLeaf M (bumpCount st2 stateId i) stateId i s').1) =
      rolloutV2 M s'
        ((registerLeaf M (bumpCount st2 stateId i) stateId i s').1) from rfl,
    h6] at hfr
  have hne' : ¬ (st.lastId + 1 = stateId) := fun h => hid h.symm
  refine ⟨hmain, ?_, ?_, ?_⟩
  · rw [hmain]
    show (addVal st5 stateId i (M.discount * rv)).lastId = st.lastId + 1
    unfold addVal
    rw [modifyNode_lastId, hfr.2, hRlast]
  · rw [hmain]
    show lookupTable (addVal st5 stateId i (M.discount * rv)) (st.lastId + 1) = _
    unfold addVal
    rw [lookupTable_modifyNode, if_neg hne',
      lookupTable_eq_of_table hfr.1, hRnew]
  · rw [hmain]
    refine ⟨{ node0 with
        numVisits := node0.numVisits + 1
        numVisitsActions := node0.numVisitsActions.set i
          (node0.numVisitsActions.getD i 0 + 1)
        actions := setBinding node0.actions i s' (st.lastId + 1)
        aValues := node0.aValues.set i
          (node0.aValues.getD i 0 + M.discount * rv) }, ?_, ?_⟩
    · show lookupTable (addVal st5 stateId i (M.discount * rv)) stateId = _
      unfold addVal
      rw [lookupTable_modifyNode, if_pos rfl,
        lookupTable_eq_of_table hfr.1, hRme]
      rfl
    · show (node0.aValues.set i
        (node0.aValues.getD i 0 + M.discount * rv)).getD i 0 = _
      exact getD_set_self hlen _ _

/-- Fresh `mcts_v2` planner state over the all-terminal environment
`envT`: a single root node for state 0. -/
def stV : McState ℕ ℕ :=
  { table := [(0, mkStateNode envT 0 0)], lastId := 0,
    rng := fun _ => 0, rngIdx := 0 }

/-- `mcts_v2` configuration over `envT` with discount 1/2. -/
def MV : Mcts ℕ ℕ :=
  { numSim := 1, c := 1, env := envT, budget := 3, discount := 1/2,
    rolloutPolicy := fun _ _ => 0, ops := opsD }

/-- `stV` after the visit bump and the tie-break draw. -/
def stV2 : McState ℕ ℕ :=
  { table := [(0, { mkStateNode envT 0 0 with numVisits := 1 })],
    lastId := 0, rng := fun _ => 0, rngIdx := 1 }

/-- The state after leaf registration and the uniform-random rollout
draw of the `stV` traversal. -/
def ndVroot : StateNode ℕ ℕ :=
  { state := 0, id := 0, actions := [⟨0, [(1, 1)]⟩],
    numVisitsActions := [1], aValues := [0], numVisits := 1 }

/-- The fresh node registered for the terminal successor state 1. -/
def ndVleaf : StateNode ℕ ℕ :=
  { state := 1, id := 1, actions := [⟨0, []⟩],
    numVisitsActions := [0], aValues := [0], numVisits := 1 }

def stVr : McState ℕ ℕ :=
  { table := [(0, ndVroot), (1, ndVleaf)],
    lastId := 1, rng := fun _ => 0, rngIdx := 2 }

/-- C10, witness: on `stV` the first transition is terminal with reward
5 and its successor state 1 is unknown; the engine registers a node for
the terminal state and backs up `discount * rollout(1) = 5/2`. -/
theorem c10_expand_terminal_leaf_witness :
    simulateV2 MV 5 0 stV =
      (addVal stVr 0 0 (MV.discount * 5), some (MV.discount * 5)) ∧
    (simulateV2 MV 5 0 stV).1.lastId = stV.lastId + 1 ∧
    lookupTable (simulateV2 MV 5 0 stV).1 (stV.lastId + 1) =
      some { mkStateNode MV.env 1 (stV.lastId + 1) with numVisits := 1 } ∧
    (∃ nd, lookupTable (simulateV2 MV 5 0 stV).1 0 = some nd ∧
      nd.aValues.getD 0 0 =
        (mkStateNode envT 0 0).aValues.getD 0 0 + MV.discount * 5) :=
  simulateV2_expand_terminal_leaf MV 4 0 stV stV2 stVr
    (mkStateNode envT 0 0) 0 ⟨0, []⟩ 1 5 5
    (by with_unfolding_all rfl) (by with_unfolding_all rfl)
    (by with_unfolding_all rfl) (by with_unfolding_all rfl)
    (by with_unfolding_all rfl) (by with_unfolding_all rfl)
    (by decide) (by decide!)

/-- Modelled from the claim's words: the list of rewards collected by a
rollout that repeatedly applies the rollout policy, stopping exactly
when the environment signals termination or after `maxSteps` steps
(the remaining step budget); exhausting the budget just truncates the
list. -/
def rolloutRewards (M : Mcts S A) : ℕ → S → (ℕ → ℕ) → ℕ → List ℚ
  | 0, _, _, _ => []
  | m + 1, s, rng, ix =>
    let a := M.rolloutPolicy s (rng ix)
    let (s', r, term) := M.env.step s a
    r :: (if term then [] else rolloutRewards M m s' rng (ix + 1))

/-- Sum over steps `k` of `reward_k * discount^k`, with `k` starting at
the given index. -/
def discSumFrom (d : ℚ) : ℕ → List ℚ → ℚ
  | _, [] => 0
  | k, r :: t => r * d ^ k + discSumFrom d (k + 1) t

/-- The claim's return estimator: sum over steps `k` (starting at 0) of
`reward_k * discount^k`. -/
def discSum (d : ℚ) (l : List ℚ) : ℚ := discSumFrom d 0 l

theorem rolloutAuxP_discSum (M : Mcts S A) :
    ∀ (fuel : ℕ) (s : S) (cd k : ℕ) (acc : ℚ) (st : McState S A),
      cd + k ≤ M.budget → M.budget - (cd + k) < fuel →
      (rolloutAuxP M fuel s cd k acc st).2 =
        some (acc + discSumFrom M.discount k
          (rolloutRewards M (M.budget - (cd + k)) s st.rng st.rngIdx)) := by
  intro fuel
  induction fuel with
  | zero =>
    intro s cd k acc st _ hf
    exact absurd hf (by omega)
  | succ n ih =>
    intro s cd k acc st hle hf
    unfold rolloutAuxP
    by_cases hb : cd + k = M.budget
    · have hm : M.budget - (cd + k) = 0 := by omega
      rw [if_pos hb, hm]
      show some acc = some (acc + discSumFrom M.discount k [])
      rw [show discSumFrom M.discount k ([] : List ℚ) = 0 from rfl, add_zero]
    · rw [if_neg hb]
      simp only [draw]
      have hm : M.budget - (cd + k) = (M.budget - (cd + (k + 1))) + 1 := by omega
      rw [hm]
      rcases hstep : M.env.step s (M.rolloutPolicy s (st.rng st.rngIdx))
        with ⟨s', r, term⟩
      unfold rolloutRewards
      simp only [hstep]
      cases term with
      | true =>
        simp only [if_true, ite_true]
        show some (acc + r * M.discount ^ k) = _
        rw [show discSumFrom M.discount k [r] =
          r * M.discount ^ k + 0 from rfl, add_zero]
      | false =>
        simp only [Bool.false_eq_true, ite_false]
        show (rolloutAuxP M n s' cd (k + 1) (acc + r * M.discount ^ k)
          { st with rngIdx := st.rngIdx + 1 }).2 = _
        rw [ih s' cd (k + 1) (acc + r * M.discount ^ k)
          { st with rngIdx := st.rngIdx + 1 } (by omega) (by omega)]
        show some _ = some (acc + (r * M.discount ^ k + discSumFrom M.discount
          (k + 1) (rolloutRewards M (M.budget - (cd + (k + 1))) s' st.rng
            (st.rngIdx + 1))))
        rw [add_assoc]

/-- C4 (amended, `planner_mcts` variant): for every starting state and
every starting depth not exceeding the budget, `rollout` returns
exactly the sum over its steps `k` (from 0) of
`reward_k * discount^k`, where the step sequence stops exactly at
termination or when tree depth plus rollout steps reaches the
computational budget; exhausting the budget is not an error and yields
the partial discounted sum.  (For a starting depth beyond the budget
the source's `!=` loop test never fires, which is why the bound is
required; the `mcts_v2` variant instead returns only its final step's
reward, see `c4_v2_rollout_last_reward_only`.) -/
theorem rolloutP_discounted_sum (M : Mcts S A) (s : S) (currDepth : ℕ)
    (st : McState S A) (h : currDepth ≤ M.budget) :
    (rolloutP M s currDepth st).2 =
      some (discSum M.discount
        (rolloutRewards M (M.budget - currDepth) s st.rng st.rngIdx)) := by
  have := rolloutAuxP_discSum M (M.budget + 1) s currDepth 0 0 st
    (by omega) (by omega)
  rw [show rolloutP M s currDepth st =
    rolloutAuxP M (M.budget + 1) s currDepth 0 0 st from rfl, this,
    zero_add]
  rfl

/-- Chain environment for the C4 analysis: state `s` steps to `s + 1`
with rewards 3, 4, 9, ... and becomes terminal from state 2 on. -/
def envC4 : BetterGym ℕ ℕ :=
  { getActions := fun _ => [0]
    step := fun s _ =>
      (s + 1, if s = 0 then 3 else if s = 1 then 4 else 9, 2 ≤ s) }

/-- Planner over `envC4` with budget 2 and discount 1. -/
def MC4 : Mcts ℕ ℕ :=
  { numSim := 1, c := 1, env := envC4, budget := 2, discount := 1,
    rolloutPolicy := fun _ _ => 0, ops := opsD }

/-- An empty planner state over `envC4`. -/
def stC4 : McState ℕ ℕ :=
  { table := [], lastId := -1, rng := fun _ => 0, rngIdx := 0 }

/-- C4, counterexample: the `mcts_v2` rollout from state 0 under budget
2 takes two steps with rewards 3 then 4 and returns 4 — the reward of
its last simulated step — not the discounted sum 3 + 4 = 7 the claim
specifies (discount is 1 here, so no discounting is involved). -/
theorem c4_v2_rollout_last_reward_only :
    (rolloutV2 MC4 0 stC4).2 = some 4 ∧
    discSum MC4.discount
      (rolloutRewards MC4 MC4.budget 0 stC4.rng stC4.rngIdx) = 7 ∧
    ¬ (rolloutV2 MC4 0 stC4).2 =
      some (discSum MC4.discount
        (rolloutRewards MC4 MC4.budget 0 stC4.rng stC4.rngIdx)) := by
  refine ⟨by decide!, by decide!, by decide!⟩

/-- C4, witness: the discounted-sum theorem applied to the `envC4`
planner at starting depth 1 (one step of remaining budget: the rollout
stops by budget exhaustion, not termination, and yields the partial
sum 3). -/
theorem c4_discounted_sum_witness :
    1 ≤ MC4.budget ∧
    (rolloutP MC4 0 1 stC4).2 =
      some (discSum MC4.discount
        (rolloutRewards MC4 (MC4.budget - 1) 0 stC4.rng stC4.rngIdx)) :=
  ⟨by decide, rolloutP_discounted_sum MC4 0 1 stC4 (by decide)⟩

theorem ucbScoresV2_get? (ops : FloatOps) (c : ℚ) (N : ℕ)
    (counts : List ℕ) (avals : List ℚ) (i : ℕ) (h : i < counts.length) :
    (ucbScoresV2 ops c N counts avals).get? i = some
      (let n := counts.getD i 0
       let q := fdivF (F.fin (avals.getD i 0)) (F.fin (n : ℚ))
       let bonus := fmulQ c (ops.sqrt (fdivF (ops.log N) (F.fin (n : ℚ))))
       let raw := fadd q bonus
       if raw = F.nan then F.inf else raw) := by
  unfold ucbScoresV2
  rw [List.get?_map, List.get?_range h]
  rfl

theorem ucbScoresP_get? (ops : FloatOps) (c : ℚ) (N : ℕ)
    (counts : List ℕ) (avals : List ℚ) (i : ℕ) (h : i < counts.length) :
    (ucbScoresP ops c N counts avals).get? i = some
      (let n := counts.getD i 0
       let q := if n ≠ 0 then F.fin (avals.getD i 0 / (n : ℚ)) else F.inf
       let inner := if n ≠ 0 then fdivF (ops.log N) (F.fin (n : ℚ)) else F.inf
       fadd q (fmulQ c (ops.sqrt inner))) := by
  unfold ucbScoresP
  rw [List.get?_map, List.get?_range h]
  rfl

theorem fdivF_fin_fin (a b : ℚ) : fdivF (F.fin a) (F.fin b) =
    if b = 0 then (if 0 < a then F.inf else if a < 0 then F.ninf else F.nan)
    else F.fin (a / b) := rfl

theorem fadd_nan_left (x : F) : fadd F.nan x = F.nan := by
  cases x <;> rfl

theorem fadd_fin_fin (a b : ℚ) : fadd (F.fin a) (F.fin b) = F.fin (a + b) := rfl

theorem fmulQ_fin (c b : ℚ) : fmulQ c (F.fin b) = F.fin (c * b) := rfl

theorem ucbScoresV2_length (ops : FloatOps) (c : ℚ) (N : ℕ)
    (counts : List ℕ) (avals : List ℚ) :
    (ucbScoresV2 ops c N counts avals).length = counts.length := by
  unfold ucbScoresV2
  rw [List.length_map, List.length_range]

theorem ucbScoresP_length (ops : FloatOps) (c : ℚ) (N : ℕ)
    (counts : List ℕ) (avals : List ℚ) :
    (ucbScoresP ops c N counts avals).length = counts.length := by
  unfold ucbScoresP
  rw [List.length_map, List.length_range]

theorem ucbScoresV2_zero_visit (ops : FloatOps) (c : ℚ) (N : ℕ)
    (counts : List ℕ) (avals : List ℚ) (i : ℕ) (h : i < counts.length)
    (hc : counts.getD i 0 = 0) (ha : avals.getD i 0 = 0) :
    (ucbScoresV2 ops c N counts avals).get? i = some F.inf := by
  rw [ucbScoresV2_get? ops c N counts avals i h]
  simp only [hc, ha]
  have hq : fdivF (F.fin 0) (F.fin ((0 : ℕ) : ℚ)) = F.nan := by
    rw [show ((0 : ℕ) : ℚ) = 0 from rfl, fdivF_fin_fin]
    simp
  rw [hq, fadd_nan_left]
  rfl

theorem ucbScoresV2_pos_visit (ops : FloatOps) (c : ℚ) (N : ℕ)
    (counts : List ℕ) (avals : List ℚ)
    (hS : SqrtSpec ops.sqrt) (hL : LogSpec ops.log) (hN : 1 ≤ N)
    (i : ℕ) (h : i < counts.length) (hc : 0 < counts.getD i 0) :
    ∃ q : ℚ, (ucbScoresV2 ops c N counts avals).get? i = some (F.fin q) := by
  rw [ucbScoresV2_get? ops c N counts avals i h]
  obtain ⟨y, hy0, hy⟩ := hL.pos_fin N hN
  have hne : ((counts.getD i 0 : ℕ) : ℚ) ≠ 0 := by
    exact_mod_cast Nat.pos_iff_ne_zero.mp hc
  have hq : fdivF (F.fin (avals.getD i 0)) (F.fin ((counts.getD i 0 : ℕ) : ℚ)) =
      F.fin (avals.getD i 0 / ((counts.getD i 0 : ℕ) : ℚ)) := by
    rw [fdivF_fin_fin, if_neg hne]
  have hinner : fdivF (ops.log N) (F.fin ((counts.getD i 0 : ℕ) : ℚ)) =
      F.fin (y / ((counts.getD i 0 : ℕ) : ℚ)) := by
    rw [hy, fdivF_fin_fin, if_neg hne]
  have hratio : (0 : ℚ) ≤ y / ((counts.getD i 0 : ℕ) : ℚ) := by
    apply div_nonneg hy0
    exact_mod_cast Nat.zero_le _
  obtain ⟨z, hz0, hz⟩ := hS.fin_nonneg _ hratio
  refine ⟨avals.getD i 0 / ((counts.getD i 0 : ℕ) : ℚ) + c * z, ?_⟩
  simp only [hq, hinner, hz]
  rfl

theorem ucbScoresP_zero_visit (ops : FloatOps) (c : ℚ) (N : ℕ)
    (counts : List ℕ) (avals : List ℚ)
    (hS : SqrtSpec ops.sqrt) (hc0 : 0 < c)
    (i : ℕ) (h : i < counts.length) (hc : counts.getD i 0 = 0) :
    (ucbScoresP ops c N counts avals).get? i = some F.inf := by
  rw [ucbScoresP_get? ops c N counts avals i h]
  simp only [hc, ne_eq, not_true_eq_false, if_false, ite_false, hS.inf_eq]
  show some (fadd F.inf (fmulQ c F.inf)) = some F.inf
  unfold fmulQ
  rw [if_pos hc0]
  rfl

theorem ucbScoresP_pos_visit (ops : FloatOps) (c : ℚ) (N : ℕ)
    (counts : List ℕ) (avals : List ℚ)
    (hS : SqrtSpec ops.sqrt) (hL : LogSpec ops.log) (hN : 1 ≤ N)
    (i : ℕ) (h : i < counts.length) (hc : 0 < counts.getD i 0) :
    ∃ q : ℚ, (ucbScoresP ops c N counts avals).get? i = some (F.fin q) := by
  rw [ucbScoresP_get? ops c N counts avals i h]
  obtain ⟨y, hy0, hy⟩ := hL.pos_fin N hN
  have hne : ((counts.getD i 0 : ℕ) : ℚ) ≠ 0 := by
    exact_mod_cast Nat.pos_iff_ne_zero.mp hc
  have hnz : counts.getD i 0 ≠ 0 := Nat.pos_iff_ne_zero.mp hc
  have hinner : fdivF (ops.log N) (F.fin ((counts.getD i 0 : ℕ) : ℚ)) =
      F.fin (y / ((counts.getD i 0 : ℕ) : ℚ)) := by
    rw [hy, fdivF_fin_fin, if_neg hne]
  have hratio : (0 : ℚ) ≤ y / ((counts.getD i 0 : ℕ) : ℚ) := by
    apply div_nonneg hy0
    exact_mod_cast Nat.zero_le _
  obtain ⟨z, hz0, hz⟩ := hS.fin_nonneg _ hratio
  refine ⟨avals.getD i 0 / ((counts.getD i 0 : ℕ) : ℚ) + c * z, ?_⟩
  simp only [hnz, ne_eq, not_false_eq_true, if_true, ite_true, hinner, hz]
  rfl

/-- Forced exploration, abstracted over the score array: if zero-visit
entries score `+inf` and positive-visit entries score finite, the
array maximum exists (`np.max` does not raise), the tie set
`np.flatnonzero(scores == max)` is nonempty, and it contains only
zero-visit indices. -/
theorem forced_exploration_of_scores (scores : List F) (counts : List ℕ)
    (hlen : scores.length = counts.length)
    (hzero : ∀ i, i < counts.length → counts.getD i 0 = 0 →
      scores.get? i = some F.inf)
    (hpos : ∀ i, i < counts.length → 0 < counts.getD i 0 →
      ∃ q, scores.get? i = some (F.fin q))
    (hex : ∃ i, i < counts.length ∧ counts.getD i 0 = 0) :
    fmaxList scores = some F.inf ∧ maxIdxList scores F.inf ≠ [] ∧
      ∀ i ∈ maxIdxList scores F.inf, i < counts.length ∧
        counts.getD i 0 = 0 := by
  obtain ⟨i0, hi0, hc0⟩ := hex
  have hshape : ∀ j, j < counts.length →
      scores.get? j = some F.inf ∨ ∃ q, scores.get? j = some (F.fin q) := by
    intro j hj
    rcases Nat.eq_zero_or_pos (counts.getD j 0) with hz | hp
    · exact Or.inl (hzero j hj hz)
    · exact Or.inr (hpos j hj hp)
  have hinf_mem : F.inf ∈ scores := List.get?_mem (hzero i0 hi0 hc0)
  have hnan_not : F.nan ∉ scores := by
    intro hmem
    obtain ⟨j, hj⟩ := List.get?_of_mem hmem
    have hjlt : j < counts.length := by
      rw [← hlen]
      exact (List.get?_eq_some.mp hj).choose
    rcases hshape j hjlt with hc | ⟨q, hc⟩
    · rw [hj] at hc
      exact absurd (Option.some.injEq _ _ ▸ hc) (by simp)
    · rw [hj] at hc
      simp at hc
  have hmax : fmaxList scores = some F.inf := fmaxList_of_inf_mem hinf_mem hnan_not
  refine ⟨hmax, ?_, ?_⟩
  · have : i0 ∈ maxIdxList scores F.inf := by
      unfold maxIdxList
      rw [List.mem_filter]
      constructor
      · rw [List.mem_range, hlen]
        exact hi0
      · rw [List.getD_eq_getElem?_getD, ← List.get?_eq_getElem?,
          hzero i0 hi0 hc0]
        rfl
    intro hempty
    rw [hempty] at this
    simp at this
  · intro i hi
    unfold maxIdxList at hi
    rw [List.mem_filter, List.mem_range] at hi
    obtain ⟨hilt, hfeq⟩ := hi
    have hilt' : i < counts.length := hlen ▸ hilt
    refine ⟨hilt', ?_⟩
    by_contra hne
    obtain ⟨q, hq⟩ := hpos i hilt' (Nat.pos_of_ne_zero hne)
    rw [List.getD_eq_getElem?_getD, ← List.get?_eq_getElem?, hq] at hfeq
    simp [feq] at hfeq

/-- C5 (amended): in the UCB1 selection step, every zero-visit action
receives score `+inf` — in the `mcts_v2` variant for every exploration
constant `c` (its NaN scores are patched to `+inf`), and in the
`planner_mcts` variant whenever `c > 0` (with `c = 0` numpy's
`0 * inf = NaN` makes the zero-visit score NaN instead, see
`c5_planner_c_zero_nan_score`).  Under those conditions no NaN reaches
the max-score comparison: the maximum exists, the tie set is nonempty,
it consists of zero-visit indices only, and consequently the selected
action of `pickIdx` is an unvisited one — every action is tried once
before any positively-visited action is selected again. -/
theorem ucb_zero_visit_forced_exploration {S A : Type} (ops : FloatOps)
    (c : ℚ) (N : ℕ) (counts : List ℕ) (avals : List ℚ)
    (hS : SqrtSpec ops.sqrt) (hL : LogSpec ops.log) (hN : 1 ≤ N)
    (hz : ∀ i, i < counts.length → counts.getD i 0 = 0 → avals.getD i 0 = 0)
    (hex : ∃ i, i < counts.length ∧ counts.getD i 0 = 0) :
    (fmaxList (ucbScoresV2 ops c N counts avals) = some F.inf ∧
      maxIdxList (ucbScoresV2 ops c N counts avals) F.inf ≠ [] ∧
      ∀ i ∈ maxIdxList (ucbScoresV2 ops c N counts avals) F.inf,
        i < counts.length ∧ counts.getD i 0 = 0) ∧
    (∀ (st st' : McState S A) (i : ℕ),
      pickIdx (ucbScoresV2 ops c N counts avals) st = some (i, st') →
      counts.getD i 0 = 0) ∧
    (0 < c →
      (fmaxList (ucbScoresP ops c N counts avals) = some F.inf ∧
        maxIdxList (ucbScoresP ops c N counts avals) F.inf ≠ [] ∧
        ∀ i ∈ maxIdxList (ucbScoresP ops c N counts avals) F.inf,
          i < counts.length ∧ counts.getD i 0 = 0) ∧
      ∀ (st st' : McState S A) (i : ℕ),
        pickIdx (ucbScoresP ops c N counts avals) st = some (i, st') →
        counts.getD i 0 = 0) := by
  have hv2 := forced_exploration_of_scores (ucbScoresV2 ops c N counts avals)
    counts (ucbScoresV2_length ops c N counts avals)
    (fun i hi hci => ucbScoresV2_zero_visit ops c N counts avals i hi hci
      (hz i hi hci))
    (fun i hi hci => ucbScoresV2_pos_visit ops c N counts avals hS hL hN i hi hci)
    hex
  refine ⟨hv2, ?_, ?_⟩
  · intro st st' i hpick
    unfold pickIdx at hpick
    rw [hv2.1] at hpick
    exact (hv2.2.2 i (choice_some hpick).2.2).2
  · intro hc0
    have hp := forced_exploration_of_scores (ucbScoresP ops c N counts avals)
      counts (ucbScoresP_length ops c N counts avals)
      (fun i hi hci => ucbScoresP_zero_visit ops c N counts avals hS hc0 i hi hci)
      (fun i hi hci => ucbScoresP_pos_visit ops c N counts avals hS hL hN i hi hci)
      hex
    refine ⟨hp, ?_⟩
    intro st st' i hpick
    unfold pickIdx at hpick
    rw [hp.1] at hpick
    exact (hp.2.2 i (choice_some hpick).2.2).2

/-- Planner configuration over `envC3` with exploration constant 0. -/
def MC5z : Mcts ℕ ℕ :=
  { numSim := 1, c := 0, env := envC3, budget := 5, discount := 1,
    rolloutPolicy := fun _ _ => 0, ops := opsD }

/-- C5, counterexample: in the `planner_mcts` variant with the
spec-admissible exploration constant `c = 0`, a fresh node's zero-visit
UCB scores are `0 * inf + inf = NaN`, not `+inf`; the NaN propagates
into the max comparison, the tie set is empty, and the selection step
of `simulate` fails (numpy raises on choosing from an empty array)
instead of selecting every action once. -/
theorem c5_planner_c_zero_nan_score :
    ucbScoresP opsD 0 1 [0, 0] [0, 0] = [F.nan, F.nan] ∧
    ¬ (ucbScoresP opsD 0 1 [0, 0] [0, 0]).get? 0 = some F.inf ∧
    pickIdx (ucbScoresP opsD 0 1 [0, 0] [0, 0]) stC3 = none ∧
    (simulateP MC5z 5 0 0 stC3).2 = none := by
  refine ⟨by decide!, by decide!, by with_unfolding_all rfl, by decide!⟩

/-- C5, witness: the forced-exploration theorem applied to a node with
visit counts `[1, 0]` and values `[5, 0]` at parent visit count 2, at
exploration constant 1. -/
theorem c5_forced_exploration_witness :
    (fmaxList (ucbScoresV2 opsD 1 2 [1, 0] [5, 0]) = some F.inf ∧
      maxIdxList (ucbScoresV2 opsD 1 2 [1, 0] [5, 0]) F.inf ≠ [] ∧
      ∀ i ∈ maxIdxList (ucbScoresV2 opsD 1 2 [1, 0] [5, 0]) F.inf,
        i < ([1, 0] : List ℕ).length ∧ ([1, 0] : List ℕ).getD i 0 = 0) ∧
    (∀ (st st' : McState ℕ ℕ) (i : ℕ),
      pickIdx (ucbScoresV2 opsD 1 2 [1, 0] [5, 0]) st = some (i, st') →
      ([1, 0] : List ℕ).getD i 0 = 0) ∧
    (0 < (1 : ℚ) →
      (fmaxList (ucbScoresP opsD 1 2 [1, 0] [5, 0]) = some F.inf ∧
        maxIdxList (ucbScoresP opsD 1 2 [1, 0] [5, 0]) F.inf ≠ [] ∧
        ∀ i ∈ maxIdxList (ucbScoresP opsD 1 2 [1, 0] [5, 0]) F.inf,
          i < ([1, 0] : List ℕ).length ∧ ([1, 0] : List ℕ).getD i 0 = 0) ∧
      ∀ (st st' : McState ℕ ℕ) (i : ℕ),
        pickIdx (ucbScoresP opsD 1 2 [1, 0] [5, 0]) st = some (i, st') →
        ([1, 0] : List ℕ).getD i 0 = 0) :=
  ucb_zero_visit_forced_exploration opsD 1 2 [1, 0] [5, 0]
    sqrtD_spec logD_spec (by decide) (by decide) ⟨1, by decide, by decide⟩

/-- Claim C8's per-node invariant: the parallel arrays are sized to the
action list and an action is visited at most as often as its owning
state. -/
def NodeOk (nd : StateNode S A) : Prop :=
  nd.actions.length = nd.numVisitsActions.length ∧
  nd.actions.length = nd.aValues.length ∧
  nd.numVisitsActions.sum ≤ nd.numVisits

/-- Claim C8's invariant over the whole node table. -/
def TreeOk (st : McState S A) : Prop := ∀ p ∈ st.table, NodeOk p.2

instance (nd : StateNode S A) : Decidable (NodeOk nd) := by
  unfold NodeOk
  infer_instance

instance (st : McState S A) : Decidable (TreeOk st) := by
  unfold TreeOk
  exact List.decidableBAll _ _

theorem sum_set_succ_le (l : List ℕ) (i : ℕ) :
    (l.set i (l.getD i 0 + 1)).sum ≤ l.sum + 1 := by
  induction l generalizing i with
  | nil => simp
  | cons x t ih =>
    cases i with
    | zero => simp [List.getD]; omega
    | succ j =>
      show (x :: t.set j (t.getD j 0 + 1)).sum ≤ (x :: t).sum + 1
      simp only [List.sum_cons]
      have := ih j
      have harg : (x :: t).getD (j + 1) 0 = t.getD j 0 := rfl
      omega

theorem TreeOk_of_table_eq {st st' : McState S A}
    (h : st.table = st'.table) (hok : TreeOk st') : TreeOk st := by
  intro p hp
  exact hok p (h ▸ hp)

theorem TreeOk_tableSet {st : McState S A} {i : ℤ} {nd : StateNode S A}
    (hok : TreeOk st) (hnd : NodeOk nd) : TreeOk (tableSet st i nd) := by
  intro p hp
  unfold tableSet at hp
  by_cases hf : (st.table.find? (fun p => decide (p.1 = i))).isSome
  · rw [if_pos hf] at hp
    simp only [List.mem_map] at hp
    obtain ⟨q, hq, hpq⟩ := hp
    by_cases hqi : q.1 = i
    · rw [if_pos hqi] at hpq
      rw [← hpq]
      exact hnd
    · rw [if_neg hqi] at hpq
      rw [← hpq]
      exact hok q hq
  · rw [if_neg hf] at hp
    rcases List.mem_append.mp hp with hq | hq
    · exact hok p hq
    · simp only [List.mem_singleton] at hq
      rw [hq]
      exact hnd

theorem TreeOk_modifyNode {st : McState S A} {i : ℤ}
    {f : StateNode S A → StateNode S A} (hok : TreeOk st)
    (hf : ∀ nd, NodeOk nd → NodeOk (f nd)) : TreeOk (modifyNode st i f) := by
  intro p hp
  unfold modifyNode at hp
  simp only [List.mem_map] at hp
  obtain ⟨q, hq, hpq⟩ := hp
  by_cases hqi : q.1 = i
  · rw [if_pos hqi] at hpq
    rw [← hpq]
    exact hf q.2 (hok q hq)
  · rw [if_neg hqi] at hpq
    rw [← hpq]
    exact hok q hq

theorem NodeOk_mkStateNode (env : BetterGym S A) (s : S) (i : ℤ) :
    NodeOk (mkStateNode env s i) := by
  unfold NodeOk mkStateNode
  simp

theorem NodeOk_bumpVisits {nd : StateNode S A} (h : NodeOk nd) :
    NodeOk { nd with numVisits := nd.numVisits + 1 } := by
  obtain ⟨h1, h2, h3⟩ := h
  refine ⟨h1, h2, ?_⟩
  show nd.numVisitsActions.sum ≤ nd.numVisits + 1
  omega

theorem NodeOk_addVal {nd : StateNode S A} (h : NodeOk nd) (i : ℕ) (v : ℚ) :
    NodeOk { nd with aValues := nd.aValues.set i (nd.aValues.getD i 0 + v) } := by
  obtain ⟨h1, h2, h3⟩ := h
  exact ⟨h1, by rw [List.length_set]; exact h2, h3⟩

theorem NodeOk_setBinding [DecidableEq S] {nd : StateNode S A}
    (h : NodeOk nd) (k : ℕ) (s : S) (j : ℤ) :
    NodeOk { nd with actions := setBinding nd.actions k s j } := by
  obtain ⟨h1, h2, h3⟩ := h
  have hlen : (setBinding nd.actions k s j).length = nd.actions.length := by
    unfold setBinding
    cases nd.actions.get? k with
    | none => rfl
    | some an => exact List.length_set _ _ _
  exact ⟨by rw [hlen]; exact h1, by rw [hlen]; exact h2, h3⟩

/-- One `simulate` entry bumps the node's `num_visits` and then one of
its action counters: the combination preserves the invariant. -/
theorem NodeOk_bump_both {nd : StateNode S A} (h : NodeOk nd) (i : ℕ) :
    NodeOk { nd with
      numVisits := nd.numVisits + 1
      numVisitsActions := nd.numVisitsActions.set i
        (nd.numVisitsActions.getD i 0 + 1) } := by
  obtain ⟨h1, h2, h3⟩ := h
  refine ⟨by rw [List.length_set]; exact h1, h2, ?_⟩
  show (nd.numVisitsActions.set i (nd.numVisitsActions.getD i 0 + 1)).sum ≤
    nd.numVisits + 1
  have := sum_set_succ_le nd.numVisitsActions i
  omega

/-- The visit/count bump pair of one `simulate` entry (with the
tie-break draw in between) preserves the table invariant. -/
theorem TreeOk_bumpCount_of_bumpVisits {st st2 : McState S A}
    (stateId : ℤ) (i : ℕ) (hok : TreeOk st)
    (htab : st2.table = (bumpVisits st stateId).table) :
    TreeOk (bumpCount st2 stateId i) := by
  intro p hp
  unfold bumpCount modifyNode at hp
  simp only [htab] at hp
  unfold bumpVisits modifyNode at hp
  simp only [List.map_map, List.mem_map] at hp
  obtain ⟨q, hq, hpq⟩ := hp
  by_cases hqi : q.1 = stateId
  · simp only [Function.comp, if_pos hqi] at hpq
    rw [← hpq]
    exact NodeOk_bump_both (hok q hq) i
  · simp only [Function.comp, if_neg hqi] at hpq
    rw [← hpq]
    exact hok q hq

theorem TreeOk_registerLeaf [DecidableEq S] (M : Mcts S A)
    (st : McState S A) (stateId : ℤ) (k : ℕ) (s' : S) (hok : TreeOk st) :
    TreeOk (registerLeaf M st stateId k s').1 := by
  show TreeOk (bumpVisits (modifyNode
    (tableSet { st with lastId := st.lastId + 1 } (st.lastId + 1)
      (mkStateNode M.env s' (st.lastId + 1))) stateId
    (fun nd => { nd with actions := setBinding nd.actions k s' (st.lastId + 1) }))
    (st.lastId + 1))
  unfold bumpVisits
  refine TreeOk_modifyNode ?_ (fun nd h => NodeOk_bumpVisits h)
  refine TreeOk_modifyNode ?_ (fun nd h => NodeOk_setBinding h k s' _)
  refine TreeOk_tableSet ?_ (NodeOk_mkStateNode _ _ _)
  exact fun p hp => hok p hp

theorem simulateP_TreeOk [DecidableEq S] (M : Mcts S A) :
    ∀ (fuel : ℕ) (stateId : ℤ) (depth : ℕ) (st : McState S A),
      TreeOk st → TreeOk (simulateP M fuel stateId depth st).1 := by
  intro fuel
  induction fuel with
  | zero => intro sid depth st hok; exact hok
  | succ n ih =>
    intro sid depth st hok
    have hbump : TreeOk (bumpVisits st sid) :=
      TreeOk_modifyNode hok (fun nd h => NodeOk_bumpVisits h)
    unfold simulateP
    cases hlook : lookupTable st sid with
    | none => simpa [hlook] using hok
    | some node0 =>
      simp only [hlook]
      cases hpick : pickIdx (ucbScoresP M.ops M.c (node0.numVisits + 1)
          node0.numVisitsActions node0.aValues) (bumpVisits st sid) with
      | none => simpa [hpick] using hbump
      | some pr =>
        obtain ⟨i, st2⟩ := pr
        simp only [hpick]
        have htab2 : st2.table = (bumpVisits st sid).table := (pickIdx_some hpick).1
        have hok2 : TreeOk st2 := TreeOk_of_table_eq htab2 hbump
        have hok3 : TreeOk (bumpCount st2 sid i) :=
          TreeOk_bumpCount_of_bumpVisits sid i hok htab2
        cases hact : node0.actions.get? i with
        | none => simpa [hact] using hok2
        | some actNode =>
          simp only [hact]
          rcases hstep : M.env.step node0.state actNode.action with ⟨s', r, term⟩
          simp only [hstep]
          cases hmap : mapLookup actNode.stateToId s' with
          | none =>
            simp only [hmap]
            have hok4 : TreeOk
                (registerLeaf M (bumpCount st2 sid i) sid i s').1 :=
              TreeOk_registerLeaf M _ sid i s' hok3
            rcases hroll : rolloutAuxP M (M.budget + 1) s' (depth + 1) 0 0
              ((registerLeaf M (bumpCount st2 sid i) sid i s').1)
              with ⟨st5, rv⟩
            have hok5 : TreeOk st5 := by
              have := (rolloutAuxP_frame M (M.budget + 1) s' (depth + 1) 0 0
                ((registerLeaf M (bumpCount st2 sid i) sid i s').1)).1
              rw [hroll] at this
              exact TreeOk_of_table_eq this hok4
            cases rv with
            | none => simpa using hok5
            | some rvv =>
              exact TreeOk_modifyNode hok5 (fun nd h => NodeOk_addVal h i _)
          | some j =>
            simp only [hmap]
            cases term with
            | true => simpa using hok3
            | false =>
              rcases hrec : simulateP M n j (depth + 1) (bumpCount st2 sid i)
                with ⟨st6, dv⟩
              have hok6 : TreeOk st6 := by
                have := ih j (depth + 1) (bumpCount st2 sid i) hok3
                rw [hrec] at this
                exact this
              cases dv with
              | none => simpa using hok6
              | some dvv =>
                exact TreeOk_modifyNode hok6 (fun nd h => NodeOk_addVal h i _)

/-- C8: for every `StateNode` in the global node table, after any
number of completed `simulate` calls,
`sum(num_visits_actions) <= num_visits` and
`len(actions) = len(num_visits_actions) = len(a_values)`: node
creation establishes the invariant, and every `simulate` call — on any
table satisfying it — preserves it for every node of the resulting
table (hence any sequence of calls does). -/
theorem visit_conservation [DecidableEq S] (M : Mcts S A) (fuel : ℕ)
    (stateId : ℤ) (depth : ℕ) (st st' : McState S A) (v : Option ℚ)
    (hok : TreeOk st) (heq : simulateP M fuel stateId depth st = (st', v)) :
    TreeOk st' ∧
    ∀ (env : BetterGym S A) (s : S) (i : ℤ), NodeOk (mkStateNode env s i) := by
  refine ⟨?_, fun env s i => NodeOk_mkStateNode env s i⟩
  have := simulateP_TreeOk M fuel stateId depth st hok
  rw [heq] at this
  exact this

/-- C8, witness: the invariant holds for the fresh `envC3` planner
state and is preserved across its first traversal. -/
theorem c8_visit_conservation_witness :
    TreeOk stC3one ∧
    ∀ (env : BetterGym ℕ ℕ) (s : ℕ) (i : ℤ), NodeOk (mkStateNode env s i) :=
  visit_conservation MC3 10 0 0 stC3 stC3one (some 5)
    (by decide!) (by with_unfolding_all rfl)

/-- Id discipline of the allocator: every table key is within the
allocator bound, and every transposition binding points STRICTLY ahead
of its owning node's id (a binding is only ever written with a freshly
allocated id, which exceeds every id present).  This is what makes the
recursive traversal well-founded and keeps the root out of reach of
the recursion. -/
def IdsOk (st : McState S A) : Prop :=
  ∀ p ∈ st.table, p.1 ≤ st.lastId ∧
    ∀ an ∈ p.2.actions, ∀ b ∈ an.stateToId, p.1 < b.2 ∧ b.2 ≤ st.lastId

instance (st : McState S A) : Decidable (IdsOk st) := by
  unfold IdsOk
  exact List.decidableBAll _ _

theorem lookupTable_mem {st : McState S A} {k : ℤ} {nd : StateNode S A}
    (h : lookupTable st k = some nd) : (k, nd) ∈ st.table := by
  unfold lookupTable at h
  cases hf : st.table.find? (fun p => decide (p.1 = k)) with
  | none => rw [hf] at h; exact absurd h (by simp)
  | some p =>
    rw [hf] at h
    have hpk : p.1 = k := by simpa using List.find?_some hf
    have hmem := List.mem_of_find?_eq_some hf
    have : p = (k, nd) := by
      obtain ⟨p1, p2⟩ := p
      simp only [Option.some.injEq] at h
      simp_all
    rw [← this]
    exact hmem

theorem mapLookup_mem [DecidableEq S] {m : List (S × ℤ)} {s : S} {j : ℤ}
    (h : mapLookup m s = some j) : (s, j) ∈ m := by
  unfold mapLookup at h
  cases hf : m.find? (fun p => decide (p.1 = s)) with
  | none => rw [hf] at h; exact absurd h (by simp)
  | some p =>
    rw [hf] at h
    have hps : p.1 = s := by simpa using List.find?_some hf
    have hmem := List.mem_of_find?_eq_some hf
    have : p = (s, j) := by
      obtain ⟨p1, p2⟩ := p
      simp only [Option.some.injEq] at h
      simp_all
    rw [← this]
    exact hmem

theorem mem_set_or {l : List α} {k : ℕ} {x a : α}
    (h : a ∈ l.set k x) : a = x ∨ a ∈ l := by
  induction l generalizing k with
  | nil => simp at h
  | cons y t ih =>
    cases k with
    | zero =>
      rcases List.mem_cons.mp h with hx | ht
      · exact Or.inl hx
      · exact Or.inr (List.mem_cons.mpr (Or.inr ht))
    | succ j =>
      rcases List.mem_cons.mp h with hy | ht
      · exact Or.inr (List.mem_cons.mpr (Or.inl hy))
      · rcases ih ht with hx | ht'
        · exact Or.inl hx
        · exact Or.inr (List.mem_cons.mpr (Or.inr ht'))

theorem mem_mapSet_or [DecidableEq S] {m : List (S × ℤ)} {s : S} {j : ℤ}
    {b : S × ℤ} (h : b ∈ mapSet m s j) : b = (s, j) ∨ b ∈ m := by
  unfold mapSet at h
  by_cases hf : (m.find? (fun p => decide (p.1 = s))).isSome
  · rw [if_pos hf] at h
    obtain ⟨q, hq, hbq⟩ := List.mem_map.mp h
    by_cases hqs : q.1 = s
    · rw [if_pos hqs] at hbq
      exact Or.inl hbq.symm
    · rw [if_neg hqs] at hbq
      exact Or.inr (hbq ▸ hq)
  · rw [if_neg hf] at h
    rcases List.mem_append.mp h with hq | hq
    · exact Or.inr hq
    · exact Or.inl (by simpa using hq)

theorem mem_setBinding_or [DecidableEq S] {acts : List (ActionNode S A)}
    {k : ℕ} {s : S} {j : ℤ} {an : ActionNode S A}
    (h : an ∈ setBinding acts k s j) :
    an ∈ acts ∨ ∃ an0 ∈ acts, an = { an0 with stateToId := mapSet an0.stateToId s j } := by
  unfold setBinding at h
  cases hget : acts.get? k with
  | none =>
    rw [hget] at h
    exact Or.inl h
  | some an0 =>
    rw [hget] at h
    rcases mem_set_or h with hx | hmem
    · exact Or.inr ⟨an0, List.get?_mem hget, hx⟩
    · exact Or.inl hmem

theorem IdsOk_relax (st st' : McState S A) (ht : st.table = st'.table)
    (hl : st'.lastId ≤ st.lastId) (h : IdsOk st') : IdsOk st := by
  intro p hp
  obtain ⟨h1, h2⟩ := h p (ht ▸ hp)
  exact ⟨le_trans h1 hl, fun an ha b hb =>
    ⟨(h2 an ha b hb).1, le_trans (h2 an ha b hb).2 hl⟩⟩

theorem IdsOk_key_le {st : McState S A} {k : ℤ} {nd : StateNode S A}
    (h : IdsOk st) (hl : lookupTable st k = some nd) : k ≤ st.lastId :=
  (h _ (lookupTable_mem hl)).1

theorem IdsOk_binding_bounds [DecidableEq S] {st : McState S A} {k : ℤ}
    {nd : StateNode S A} {i : ℕ} {an : ActionNode S A} {s : S} {j : ℤ}
    (h : IdsOk st) (hl : lookupTable st k = some nd)
    (ha : nd.actions.get? i = some an) (hm : mapLookup an.stateToId s = some j) :
    k < j ∧ j ≤ st.lastId :=
  (h _ (lookupTable_mem hl)).2 an (List.get?_mem ha) _ (mapLookup_mem hm)

theorem IdsOk_modifyNode_actions_eq {st : McState S A} {i : ℤ}
    {f : StateNode S A → StateNode S A}
    (hf : ∀ nd, (f nd).actions = nd.actions) (h : IdsOk st) :
    IdsOk (modifyNode st i f) := by
  intro p hp
  unfold modifyNode at hp
  simp only [List.mem_map] at hp
  obtain ⟨q, hq, hpq⟩ := hp
  obtain ⟨h1, h2⟩ := h q hq
  by_cases hqi : q.1 = i
  · rw [if_pos hqi] at hpq
    rw [← hpq]
    exact ⟨h1, by rw [hf q.2]; exact h2⟩
  · rw [if_neg hqi] at hpq
    rw [← hpq]
    exact ⟨h1, h2⟩

theorem IdsOk_tableSet_empty_maps {st : McState S A} {i : ℤ}
    {nd : StateNode S A} (h : IdsOk st) (hi : i ≤ st.lastId)
    (hnd : ∀ an ∈ nd.actions, an.stateToId = []) :
    IdsOk (tableSet st i nd) := by
  intro p hp
  unfold tableSet at hp
  have hlast : (tableSet st i nd).lastId = st.lastId := tableSet_lastId st i nd
  rw [hlast]
  by_cases hf : (st.table.find? (fun p => decide (p.1 = i))).isSome
  · rw [if_pos hf] at hp
    obtain ⟨q, hq, hpq⟩ := List.mem_map.mp hp
    by_cases hqi : q.1 = i
    · rw [if_pos hqi] at hpq
      rw [← hpq]
      refine ⟨hi, fun an ha b hb => ?_⟩
      rw [hnd an ha] at hb
      simp at hb
    · rw [if_neg hqi] at hpq
      rw [← hpq]
      exact h q hq
  · rw [if_neg hf] at hp
    rcases List.mem_append.mp hp with hq | hq
    · exact h p hq
    · simp only [List.mem_singleton] at hq
      rw [hq]
      refine ⟨hi, fun an ha b hb => ?_⟩
      rw [hnd an ha] at hb
      simp at hb

theorem registerLeaf_lastId [DecidableEq S] (M : Mcts S A)
    (st : McState S A) (stateId : ℤ) (k : ℕ) (s' : S) :
    ((registerLeaf M st stateId k s').1).lastId = st.lastId + 1 := by
  show (bumpVisits (modifyNode
    (tableSet { st with lastId := st.lastId + 1 } (st.lastId + 1)
      (mkStateNode M.env s' (st.lastId + 1))) stateId
    (fun nd => { nd with actions := setBinding nd.actions k s' (st.lastId + 1) }))
    (st.lastId + 1)).lastId = st.lastId + 1
  unfold bumpVisits
  rw [modifyNode_lastId, modifyNode_lastId, tableSet_lastId]

theorem IdsOk_registerLeaf [DecidableEq S] (M : Mcts S A)
    (st : McState S A) (stateId : ℤ) (k : ℕ) (s' : S)
    (h : IdsOk st) (hsid : stateId ≤ st.lastId) :
    IdsOk (registerLeaf M st stateId k s').1 := by
  show IdsOk (bumpVisits (modifyNode
    (tableSet { st with lastId := st.lastId + 1 } (st.lastId + 1)
      (mkStateNode M.env s' (st.lastId + 1))) stateId
    (fun nd => { nd with actions := setBinding nd.actions k s' (st.lastId + 1) }))
    (st.lastId + 1))
  have h1 : IdsOk ({ st with lastId := st.lastId + 1 } : McState S A) :=
    IdsOk_relax { st with lastId := st.lastId + 1 } st rfl
      (by show st.lastId ≤ st.lastId + 1; omega) h
  have h2 : IdsOk (tableSet { st with lastId := st.lastId + 1 } (st.lastId + 1)
      (mkStateNode M.env s' (st.lastId + 1))) := by
    refine IdsOk_tableSet_empty_maps h1 (le_refl _) ?_
    intro an ha
    unfold mkStateNode at ha
    simp only [List.mem_map] at ha
    obtain ⟨a, -, hq⟩ := ha
    rw [← hq]
  have h3 : IdsOk (modifyNode (tableSet { st with lastId := st.lastId + 1 }
      (st.lastId + 1) (mkStateNode M.env s' (st.lastId + 1))) stateId
      (fun nd => { nd with actions := setBinding nd.actions k s' (st.lastId + 1) })) := by
    intro p hp
    unfold modifyNode at hp
    simp only [List.mem_map] at hp
    obtain ⟨q, hq, hpq⟩ := hp
    have hlast2 : (tableSet { st with lastId := st.lastId + 1 } (st.lastId + 1)
        (mkStateNode M.env s' (st.lastId + 1))).lastId = st.lastId + 1 := by
      rw [tableSet_lastId]
    obtain ⟨hq1, hq2⟩ := h2 q hq
    rw [hlast2] at hq1 hq2
    show p.1 ≤ (modifyNode _ _ _).lastId ∧ _
    rw [modifyNode_lastId, hlast2]
    by_cases hqi : q.1 = stateId
    · rw [if_pos hqi] at hpq
      rw [← hpq]
      refine ⟨hq1, fun an ha b hb => ?_⟩
      rcases mem_setBinding_or ha with hold | ⟨an0, han0, hnew⟩
      · exact hq2 an hold b hb
      · rw [hnew] at hb
        rcases mem_mapSet_or hb with hbnew | hbold
        · rw [hbnew]
          constructor
          · show q.1 < st.lastId + 1
            rw [hqi]
            omega
          · exact le_refl _
        · exact hq2 an0 han0 b hbold
    · rw [if_neg hqi] at hpq
      rw [← hpq]
      exact ⟨hq1, hq2⟩
  exact IdsOk_modifyNode_actions_eq (fun nd => rfl) h3

theorem bumpVisits_lookup_ne (st : McState S A) (sid k : ℤ) (hk : k ≠ sid) :
    lookupTable (bumpVisits st sid) k = lookupTable st k := by
  unfold bumpVisits
  rw [lookupTable_modifyNode, if_neg hk]

theorem bumpCount_lookup_ne (st : McState S A) (sid : ℤ) (i : ℕ) (k : ℤ)
    (hk : k ≠ sid) :
    lookupTable (bumpCount st sid i) k = lookupTable st k := by
  unfold bumpCount
  rw [lookupTable_modifyNode, if_neg hk]

theorem addVal_lookup_ne (st : McState S A) (sid : ℤ) (i : ℕ) (v : ℚ) (k : ℤ)
    (hk : k ≠ sid) :
    lookupTable (addVal st sid i v) k = lookupTable st k := by
  unfold addVal
  rw [lookupTable_modifyNode, if_neg hk]

/-- Allocator discipline is preserved by `simulate`, the allocator
cursor never decreases, and no node with an id below the visited one is
ever touched (the traversal only moves to strictly larger ids). -/
theorem simulateP_ids [DecidableEq S] (M : Mcts S A) :
    ∀ (fuel : ℕ) (sid : ℤ) (depth : ℕ) (st : McState S A), IdsOk st →
      IdsOk (simulateP M fuel sid depth st).1 ∧
      st.lastId ≤ (simulateP M fuel sid depth st).1.lastId ∧
      ∀ k, k < sid →
        lookupTable (simulateP M fuel sid depth st).1 k = lookupTable st k := by
  intro fuel
  induction fuel with
  | zero => intro sid depth st hids; exact ⟨hids, le_refl _, fun k _ => rfl⟩
  | succ n ih =>
    intro sid depth st hids
    have hbv_ids : IdsOk (bumpVisits st sid) :=
      IdsOk_modifyNode_actions_eq (fun nd => rfl) hids
    have hbv_last : (bumpVisits st sid).lastId = st.lastId := rfl
    unfold simulateP
    cases hlook : lookupTable st sid with
    | none => exact ⟨hids, le_refl _, fun k _ => rfl⟩
    | some node0 =>
      simp only [hlook]
      have hsid_le : sid ≤ st.lastId := IdsOk_key_le hids hlook
      cases hpick : pickIdx (ucbScoresP M.ops M.c (node0.numVisits + 1)
          node0.numVisitsActions node0.aValues) (bumpVisits st sid) with
      | none =>
        simp only [hpick]
        exact ⟨hbv_ids, le_of_eq hbv_last.symm,
          fun k hk => bumpVisits_lookup_ne st sid k (by omega)⟩
      | some pr =>
        obtain ⟨i, st2⟩ := pr
        simp only [hpick]
        obtain ⟨htab2, hlast2, -⟩ := pickIdx_some hpick
        have hlast2' : st2.lastId = st.lastId := hlast2.trans hbv_last
        have hids2 : IdsOk st2 :=
          IdsOk_relax st2 (bumpVisits st sid) htab2 (by omega) hbv_ids
        have hlook2 : ∀ k, k ≠ sid → lookupTable st2 k = lookupTable st k := by
          intro k hk
          rw [lookupTable_eq_of_table htab2, bumpVisits_lookup_ne st sid k hk]
        have hids3 : IdsOk (bumpCount st2 sid i) :=
          IdsOk_modifyNode_actions_eq (fun nd => rfl) hids2
        have hlast3 : (bumpCount st2 sid i).lastId = st.lastId := hlast2'
        have hlook3 : ∀ k, k ≠ sid →
            lookupTable (bumpCount st2 sid i) k = lookupTable st k := by
          intro k hk
          rw [bumpCount_lookup_ne st2 sid i k hk, hlook2 k hk]
        have hlook3sid : lookupTable (bumpCount st2 sid i) sid =
            some { node0 with
              numVisits := node0.numVisits + 1
              numVisitsActions := node0.numVisitsActions.set i
                (node0.numVisitsActions.getD i 0 + 1) } := by
          unfold bumpCount
          rw [lookupTable_modifyNode, if_pos rfl,
            lookupTable_eq_of_table htab2]
          unfold bumpVisits
          rw [lookupTable_modifyNode, if_pos rfl, hlook]
          rfl
        cases hact : node0.actions.get? i with
        | none =>
          simp only [hact]
          exact ⟨hids2, le_of_eq hlast2'.symm, fun k hk => hlook2 k (by omega)⟩
        | some actNode =>
          simp only [hact]
          rcases hstep : M.env.step node0.state actNode.action with ⟨s', r, term⟩
          simp only [hstep]
          cases hmap : mapLookup actNode.stateToId s' with
          | none =>
            simp only [hmap]
            have hids4 : IdsOk (registerLeaf M (bumpCount st2 sid i) sid i s').1 :=
              IdsOk_registerLeaf M _ sid i s' hids3 (by omega)
            have hlast4 :
                ((registerLeaf M (bumpCount st2 sid i) sid i s').1).lastId =
                st.lastId + 1 := by
              rw [registerLeaf_lastId, hlast3]
            have hlook4 : ∀ k, k < sid →
                lookupTable (registerLeaf M (bumpCount st2 sid i) sid i s').1 k =
                lookupTable st k := by
              intro k hk
              obtain ⟨-, -, -, hother⟩ := registerLeaf_spec M (bumpCount st2 sid i)
                sid i s' _ hlook3sid (by omega)
              rw [hother k (by omega) (by omega), hlook3 k (by omega)]
            rcases hroll : rolloutAuxP M (M.budget + 1) s' (depth + 1) 0 0
              ((registerLeaf M (bumpCount st2 sid i) sid i s').1)
              with ⟨st5, rv⟩
            have hfr := rolloutAuxP_frame M (M.budget + 1) s' (depth + 1) 0 0
              ((registerLeaf M (bumpCount st2 sid i) sid i s').1)
            rw [hroll] at hfr
            have hids5 : IdsOk st5 :=
              IdsOk_relax st5 _ hfr.1 (le_of_eq hfr.2.symm) hids4
            have hlast5 : st5.lastId = st.lastId + 1 := by rw [hfr.2, hlast4]
            have hlook5 : ∀ k, k < sid →
                lookupTable st5 k = lookupTable st k := by
              intro k hk
              rw [lookupTable_eq_of_table hfr.1, hlook4 k hk]
            cases rv with
            | none =>
              exact ⟨hids5, by show st.lastId ≤ st5.lastId; omega, hlook5⟩
            | some rvv =>
              refine ⟨IdsOk_modifyNode_actions_eq (fun nd => rfl) hids5,
                ?_, ?_⟩
              · show st.lastId ≤ (addVal st5 sid i _).lastId
                unfold addVal
                rw [modifyNode_lastId]
                omega
              · intro k hk
                rw [addVal_lookup_ne st5 sid i _ k (by omega), hlook5 k hk]
          | some j =>
            simp only [hmap]
            obtain ⟨hjgt, hjle⟩ := IdsOk_binding_bounds hids hlook hact hmap
            cases term with
            | true =>
              simp only [ite_true]
              exact ⟨hids3, le_of_eq hlast3.symm,
                fun k hk => hlook3 k (by omega)⟩
            | false =>
              simp only [Bool.false_eq_true, ite_false]
              rcases hrec : simulateP M n j (depth + 1) (bumpCount st2 sid i)
                with ⟨st6, dv⟩
              have hih := ih j (depth + 1) (bumpCount st2 sid i) hids3
              rw [hrec] at hih
              obtain ⟨hids6, hlast6, hlook6⟩ := hih
              have hlast6b : st.lastId ≤ st6.lastId := by
                have h6 : (bumpCount st2 sid i).lastId ≤ st6.lastId := hlast6
                omega
              have hlook6' : ∀ k, k < sid →
                  lookupTable st6 k = lookupTable st k := by
                intro k hk
                rw [hlook6 k (by omega), hlook3 k (by omega)]
              cases dv with
              | none =>
                exact ⟨hids6, by show st.lastId ≤ st6.lastId; omega, hlook6'⟩
              | some dvv =>
                refine ⟨IdsOk_modifyNode_actions_eq (fun nd => rfl) hids6,
                  ?_, ?_⟩
                · show st.lastId ≤ (addVal st6 sid i _).lastId
                  unfold addVal
                  rw [modifyNode_lastId]
                  omega
                · intro k hk
                  rw [addVal_lookup_ne st6 sid i _ k (by omega), hlook6' k hk]

theorem addVal_lookup_self (st : McState S A) (sid : ℤ) (i : ℕ) (v : ℚ)
    {nd : StateNode S A} (h : lookupTable st sid = some nd) :
    lookupTable (addVal st sid i v) sid =
      some { nd with aValues := nd.aValues.set i (nd.aValues.getD i 0 + v) } := by
  unfold addVal
  rw [lookupTable_modifyNode, if_pos rfl, h]
  rfl

/-- One `simulate` entry at a node increments that node's `num_visits`
by exactly one (whatever else happens downstream) and never changes its
`state` or `id`. -/
theorem simulateP_node_at [DecidableEq S] (M : Mcts S A) (fuel depth : ℕ)
    (sid : ℤ) (st : McState S A) (nd : StateNode S A)
    (hids : IdsOk st) (hl : lookupTable st sid = some nd) :
    ∃ nd', lookupTable (simulateP M (fuel + 1) sid depth st).1 sid = some nd' ∧
      nd'.numVisits = nd.numVisits + 1 ∧ nd'.state = nd.state ∧ nd'.id = nd.id := by
  have hbv : lookupTable (bumpVisits st sid) sid =
      some { nd with numVisits := nd.numVisits + 1 } := by
    unfold bumpVisits
    rw [lookupTable_modifyNode, if_pos rfl, hl]
    rfl
  have hsid_le : sid ≤ st.lastId := IdsOk_key_le hids hl
  unfold simulateP
  rw [hl]
  cases hpick : pickIdx (ucbScoresP M.ops M.c (nd.numVisits + 1)
      nd.numVisitsActions nd.aValues) (bumpVisits st sid) with
  | none =>
    simp only [hpick]
    exact ⟨_, hbv, rfl, rfl, rfl⟩
  | some pr =>
    obtain ⟨i, st2⟩ := pr
    simp only [hpick]
    obtain ⟨htab2, hlast2, -⟩ := pickIdx_some hpick
    have hlast2' : st2.lastId = st.lastId := hlast2.trans rfl
    have hids2 : IdsOk st2 :=
      IdsOk_relax st2 (bumpVisits st sid) htab2 (by omega)
        (IdsOk_modifyNode_actions_eq (fun x => rfl) hids)
    have hids3 : IdsOk (bumpCount st2 sid i) :=
      IdsOk_modifyNode_actions_eq (fun x => rfl) hids2
    have hlast3 : (bumpCount st2 sid i).lastId = st.lastId := hlast2'
    have hlook3sid : lookupTable (bumpCount st2 sid i) sid =
        some { nd with
          numVisits := nd.numVisits + 1
          numVisitsActions := nd.numVisitsActions.set i
            (nd.numVisitsActions.getD i 0 + 1) } := by
      unfold bumpCount
      rw [lookupTable_modifyNode, if_pos rfl, lookupTable_eq_of_table htab2, hbv]
      rfl
    cases hact : nd.actions.get? i with
    | none =>
      simp only [hact]
      have h2 : lookupTable st2 sid =
          some { nd with numVisits := nd.numVisits + 1 } := by
        rw [lookupTable_eq_of_table htab2, hbv]
      exact ⟨_, h2, rfl, rfl, rfl⟩
    | some actNode =>
      simp only [hact]
      rcases hstep : M.env.step nd.state actNode.action with ⟨s', r, term⟩
      simp only [hstep]
      cases hmap : mapLookup actNode.stateToId s' with
      | none =>
        simp only [hmap]
        obtain ⟨-, -, hRme, -⟩ := registerLeaf_spec M (bumpCount st2 sid i)
          sid i s' _ hlook3sid (by omega)
        rcases hroll : rolloutAuxP M (M.budget + 1) s' (depth + 1) 0 0
          ((registerLeaf M (bumpCount st2 sid i) sid i s').1)
          with ⟨st5, rv⟩
        have hfr := rolloutAuxP_frame M (M.budget + 1) s' (depth + 1) 0 0
          ((registerLeaf M (bumpCount st2 sid i) sid i s').1)
        rw [hroll] at hfr
        have hlook5 : lookupTable st5 sid =
            some { { nd with
              numVisits := nd.numVisits + 1
              numVisitsActions := nd.numVisitsActions.set i
                (nd.numVisitsActions.getD i 0 + 1) } with
              actions := setBinding ({ nd with
                numVisits := nd.numVisits + 1
                numVisitsActions := nd.numVisitsActions.set i
                  (nd.numVisitsActions.getD i 0 + 1) } : StateNode S A).actions
                i s' ((bumpCount st2 sid i).lastId + 1) } := by
          rw [lookupTable_eq_of_table hfr.1, hRme]
        cases rv with
        | none => exact ⟨_, hlook5, rfl, rfl, rfl⟩
        | some rvv =>
          exact ⟨_, addVal_lookup_self st5 sid i _ hlook5, rfl, rfl, rfl⟩
      | some j =>
        simp only [hmap]
        obtain ⟨hjgt, -⟩ := IdsOk_binding_bounds hids hl hact hmap
        cases term with
        | true =>
          simp only [ite_true]
          exact ⟨_, hlook3sid, rfl, rfl, rfl⟩
        | false =>
          simp only [Bool.false_eq_true, ite_false]
          rcases hrec : simulateP M fuel j (depth + 1) (bumpCount st2 sid i)
            with ⟨st6, dv⟩
          have hih := (simulateP_ids M fuel j (depth + 1)
            (bumpCount st2 sid i) hids3).2.2 sid hjgt
          rw [hrec] at hih
          have hlook6 : lookupTable st6 sid =
              some { nd with
                numVisits := nd.numVisits + 1
                numVisitsActions := nd.numVisitsActions.set i
                  (nd.numVisitsActions.getD i 0 + 1) } := by
            rw [hih, hlook3sid]
          cases dv with
          | none => exact ⟨_, hlook6, rfl, rfl, rfl⟩
          | some dvv =>
            exact ⟨_, addVal_lookup_self st6 sid i _ hlook6, rfl, rfl, rfl⟩

theorem runSimsP_TreeOk [DecidableEq S] (M : Mcts S A) (fuel : ℕ) (rid : ℤ) :
    ∀ (n : ℕ) (st st' : McState S A) (ok : Bool), TreeOk st →
      runSimsP M fuel rid n st = (st', ok) → TreeOk st' := by
  intro n
  induction n with
  | zero =>
    intro st st' ok hok heq
    unfold runSimsP at heq
    cases heq
    exact hok
  | succ m ih =>
    intro st st' ok hok heq
    unfold runSimsP at heq
    rcases hsim : simulateP M fuel rid 0 st with ⟨st1, v⟩
    rw [hsim] at heq
    have hok1 : TreeOk st1 := by
      have := simulateP_TreeOk M fuel rid 0 st hok
      rw [hsim] at this
      exact this
    cases v with
    | none =>
      cases heq
      exact hok1
    | some vv => exact ih st1 st' ok hok1 heq

/-- Across `n` completed driver iterations the root's `num_visits`
grows by exactly `n`, and its `state` and `id` never change. -/
theorem runSimsP_root [DecidableEq S] (M : Mcts S A) (fuel : ℕ) (rid : ℤ) :
    ∀ (n : ℕ) (st : McState S A) (nd : StateNode S A) (st' : McState S A)
      (ok : Bool), IdsOk st → lookupTable st rid = some nd →
      runSimsP M fuel rid n st = (st', ok) → ok = true →
      ∃ nd', lookupTable st' rid = some nd' ∧
        nd'.numVisits = nd.numVisits + n ∧
        nd'.state = nd.state ∧ nd'.id = nd.id := by
  intro n
  induction n with
  | zero =>
    intro st nd st' ok hids hl heq _
    unfold runSimsP at heq
    cases heq
    exact ⟨nd, hl, rfl, rfl, rfl⟩
  | succ m ih =>
    intro st nd st' ok hids hl heq hok
    unfold runSimsP at heq
    cases fuel with
    | zero =>
      rw [show simulateP M 0 rid 0 st = (st, none) from rfl] at heq
      cases heq
      exact absurd hok (by simp)
    | succ f =>
      rcases hsim : simulateP M (f + 1) rid 0 st with ⟨st1, v⟩
      rw [hsim] at heq
      cases v with
      | none =>
        cases heq
        exact absurd hok (by simp)
      | some vv =>
        obtain ⟨nd1, hnd1, hv1, hs1, hi1⟩ :=
          simulateP_node_at M f 0 rid st nd hids hl
        rw [hsim] at hnd1
        have hids1 : IdsOk st1 := by
          have := (simulateP_ids M (f + 1) rid 0 st hids).1
          rw [hsim] at this
          exact this
        obtain ⟨nd', hnd', hv', hs', hi'⟩ :=
          ih st1 nd1 st' ok hids1 hnd1 heq hok
        exact ⟨nd', hnd', by omega, hs'.trans hs1, hi'.trans hi1⟩

theorem qValsRoot_get? (root : StateNode S A) (i : ℕ)
    (h : i < root.numVisitsActions.length) :
    (qValsRoot root).get? i = some
      (fdivF (F.fin (root.aValues.getD i 0))
        (F.fin ((root.numVisitsActions.getD i 0 : ℕ) : ℚ))) := by
  unfold qValsRoot
  rw [List.get?_map, List.get?_range h]
  rfl

theorem qValsRoot_length (root : StateNode S A) :
    (qValsRoot root).length = root.numVisitsActions.length := by
  unfold qValsRoot
  rw [List.length_map, List.length_range]

theorem fmaxList_all_fin (l : List F) (hne : l ≠ [])
    (hall : ∀ x ∈ l, ∃ q : ℚ, x = F.fin q) :
    ∃ m : ℚ, fmaxList l = some (F.fin m) ∧ F.fin m ∈ l ∧
      ∀ q : ℚ, F.fin q ∈ l → q ≤ m := by
  have key : ∀ (t : List F) (a : ℚ), (∀ x ∈ t, ∃ q : ℚ, x = F.fin q) →
      ∃ m : ℚ, t.foldl fmax2 (F.fin a) = F.fin m ∧ a ≤ m ∧
        (m = a ∨ F.fin m ∈ t) ∧ ∀ q : ℚ, F.fin q ∈ t → q ≤ m := by
    intro t
    induction t with
    | nil =>
      intro a _
      exact ⟨a, rfl, le_refl a, Or.inl rfl, by simp⟩
    | cons y s ihs =>
      intro a hall
      obtain ⟨b, hb⟩ := hall y (List.mem_cons_self y s)
      subst hb
      obtain ⟨m, hm, hle, hmem, hbound⟩ :=
        ihs (max a b) (fun x hx => hall x (List.mem_cons_of_mem _ hx))
      refine ⟨m, ?_, le_trans (le_max_left a b) hle, ?_, ?_⟩
      · show s.foldl fmax2 (fmax2 (F.fin a) (F.fin b)) = F.fin m
        rw [show fmax2 (F.fin a) (F.fin b) = F.fin (max a b) from rfl]
        exact hm
      · rcases hmem with hma | hms
        · rcases max_cases a b with ⟨hc, -⟩ | ⟨hc, -⟩
          · exact Or.inl (by rw [hma, hc])
          · refine Or.inr ?_
            rw [hma, hc]
            exact List.mem_cons_self _ _
        · exact Or.inr (List.mem_cons_of_mem _ hms)
      · intro q hq
        rcases List.mem_cons.mp hq with hqy | hqs
        · have hqb : q = b := by
            have := hqy
            simp only [F.fin.injEq] at this
            exact this
          rw [hqb]
          exact le_trans (le_max_right a b) hle
        · exact hbound q hqs
  cases l with
  | nil => exact absurd rfl hne
  | cons x t =>
    obtain ⟨a, ha⟩ := hall x (List.mem_cons_self x t)
    subst ha
    obtain ⟨m, hm, hle, hmem, hbound⟩ :=
      key t a (fun x hx => hall x (List.mem_cons_of_mem _ hx))
    refine ⟨m, congrArg some hm, ?_, ?_⟩
    · rcases hmem with hma | hmt
      · exact hma ▸ List.mem_cons_self _ _
      · exact List.mem_cons_of_mem _ hmt
    · intro q hq
      rcases List.mem_cons.mp hq with hqx | hqt
      · have : q = a := by
          simp only [F.fin.injEq] at hqx
          exact hqx
        rw [this]
        exact hle
      · exact hbound q hqt

theorem choice_nonempty_some {l : List α} (hne : l ≠ []) (st : McState S A) :
    ∃ a st', choice l st = some (a, st') ∧ a ∈ l := by
  unfold choice
  have hl : ¬ l.length = 0 := fun h => hne (List.length_eq_zero.mp h)
  rw [dif_neg hl]
  exact ⟨_, _, rfl, List.get_mem _ _ _⟩

theorem choice_surjective {l : List α} {j : α} (hj : j ∈ l)
    (st0 : McState S A) :
    ∃ st : McState S A,
      (choice l st).map (fun p => p.1) = some j := by
  obtain ⟨k, hk⟩ := List.mem_iff_get.mp hj
  refine ⟨{ st0 with rng := fun _ => k.val, rngIdx := 0 }, ?_⟩
  unfold choice
  have hl : ¬ l.length = 0 := by
    intro h
    have := k.isLt
    omega
  rw [dif_neg hl]
  simp only [draw, Option.map_some]
  congr 1
  have hmod : (k : ℕ) % l.length = (k : ℕ) := Nat.mod_eq_of_lt k.isLt
  simp only [hmod, Fin.eta]
  show some (l.get k) = some j
  exact congrArg some hk

theorem mkStateNode_maps_empty (env : BetterGym S A) (s : S) (i : ℤ) :
    ∀ an ∈ (mkStateNode env s i).actions, an.stateToId = [] := by
  intro an ha
  unfold mkStateNode at ha
  simp only [List.mem_map] at ha
  obtain ⟨a, -, hq⟩ := ha
  rw [← hq]

/-- C6 (amended): `plan` creates a fresh root `StateNode` for the
initial state (the root keeps `state = s0` and the freshly allocated id
`last_id + 1` throughout), runs the simulation engine from it exactly
`num_sim` times (the root's `num_visits` ends at exactly `num_sim`),
and — provided the simulations complete and every root action has been
visited — returns an action whose empirical mean
`a_values[i] / num_visits_actions[i]` is maximal among the root's
actions, the returned index being drawn by the injected random source
from the list of ALL maximal-mean indices (each of which is reachable
under some random source, the model of the uniform tie-break). -/
theorem planP_returns_max_mean [DecidableEq S] (M : Mcts S A) (fuel : ℕ)
    (s0 : S) (st0 stS : McState S A) (root : StateNode S A)
    (hids0 : IdsOk st0) (hok0 : TreeOk st0)
    (hrun : runSimsP M fuel (st0.lastId + 1) M.numSim
      (tableSet { st0 with lastId := st0.lastId + 1 } (st0.lastId + 1)
        (mkStateNode M.env s0 (st0.lastId + 1))) = (stS, true))
    (hroot : lookupTable stS (st0.lastId + 1) = some root)
    (hpos : 0 < root.numVisitsActions.length)
    (hvis : ∀ i, i < root.numVisitsActions.length →
      0 < root.numVisitsActions.getD i 0) :
    root.state = s0 ∧ root.id = st0.lastId + 1 ∧
    root.numVisits = M.numSim ∧
    (∃ (i : ℕ) (an : ActionNode S A) (m : ℚ),
      i < root.numVisitsActions.length ∧
      root.actions.get? i = some an ∧
      (planP M fuel s0 st0).2 = some an.action ∧
      root.aValues.getD i 0 / ((root.numVisitsActions.getD i 0 : ℕ) : ℚ) = m ∧
      (∀ j, j < root.numVisitsActions.length →
        root.aValues.getD j 0 / ((root.numVisitsActions.getD j 0 : ℕ) : ℚ) ≤ m) ∧
      fmaxList (qValsRoot root) = some (F.fin m) ∧
      i ∈ maxIdxList (qValsRoot root) (F.fin m) ∧
      (∀ j ∈ maxIdxList (qValsRoot root) (F.fin m),
        ∃ st' : McState S A,
          (choice (maxIdxList (qValsRoot root) (F.fin m)) st').map
            (fun p => p.1) = some j)) := by
  -- the registered fresh root and the id discipline of the start state
  have h1 : IdsOk ({ st0 with lastId := st0.lastId + 1 } : McState S A) :=
    IdsOk_relax { st0 with lastId := st0.lastId + 1 } st0 rfl
      (by show st0.lastId ≤ st0.lastId + 1; omega) hids0
  have hidsR : IdsOk (tableSet { st0 with lastId := st0.lastId + 1 }
      (st0.lastId + 1) (mkStateNode M.env s0 (st0.lastId + 1))) := by
    refine IdsOk_tableSet_empty_maps h1 ?_ (mkStateNode_maps_empty _ _ _)
    show st0.lastId + 1 ≤ st0.lastId + 1
    exact le_refl _
  have hlookR : lookupTable (tableSet { st0 with lastId := st0.lastId + 1 }
      (st0.lastId + 1) (mkStateNode M.env s0 (st0.lastId + 1)))
      (st0.lastId + 1) = some (mkStateNode M.env s0 (st0.lastId + 1)) := by
    rw [lookupTable_tableSet, if_pos rfl]
  obtain ⟨nd', hnd', hv, hs, hid⟩ := runSimsP_root M fuel (st0.lastId + 1)
    M.numSim _ _ stS true hidsR hlookR hrun rfl
  have hnd'root : nd' = root := by
    have hroot' := hroot
    rw [hnd'] at hroot'
    simpa using hroot'
  rw [hnd'root] at hv hs hid
  have hstate : root.state = s0 := hs
  have hidv : root.id = st0.lastId + 1 := hid
  have hvisits : root.numVisits = M.numSim := by
    rw [hv]
    show (mkStateNode M.env s0 (st0.lastId + 1)).numVisits + M.numSim = M.numSim
    rw [show (mkStateNode M.env s0 (st0.lastId + 1)).numVisits = 0 from rfl]
    omega
  -- the invariant gives the parallel-array lengths
  have hokR : TreeOk (tableSet { st0 with lastId := st0.lastId + 1 }
      (st0.lastId + 1) (mkStateNode M.env s0 (st0.lastId + 1))) :=
    TreeOk_tableSet (fun p hp => hok0 p hp) (NodeOk_mkStateNode _ _ _)
  have hokS : TreeOk stS := runSimsP_TreeOk M fuel (st0.lastId + 1)
    M.numSim _ stS true hokR hrun
  obtain ⟨hlen1, hlen2, -⟩ := hokS _ (lookupTable_mem hroot)
  have hlen1' : root.actions.length = root.numVisitsActions.length := hlen1
  have hlen2' : root.actions.length = root.aValues.length := hlen2
  -- the empirical means are all finite rationals
  have hfinAt : ∀ i, i < root.numVisitsActions.length →
      (qValsRoot root).get? i = some (F.fin (root.aValues.getD i 0 /
        ((root.numVisitsActions.getD i 0 : ℕ) : ℚ))) := by
    intro i hi
    rw [qValsRoot_get? root i hi]
    have hne : ((root.numVisitsActions.getD i 0 : ℕ) : ℚ) ≠ 0 := by
      exact_mod_cast Nat.pos_iff_ne_zero.mp (hvis i hi)
    rw [fdivF_fin_fin, if_neg hne]
  have hallfin : ∀ x ∈ qValsRoot root, ∃ q : ℚ, x = F.fin q := by
    intro x hx
    obtain ⟨idx, hidx⟩ := List.get?_of_mem hx
    obtain ⟨hlt, -⟩ := List.get?_eq_some.mp hidx
    rw [qValsRoot_length] at hlt
    have h2 := hfinAt idx hlt
    rw [hidx] at h2
    exact ⟨_, by simpa using h2⟩
  have hqne : qValsRoot root ≠ [] := by
    have : 0 < (qValsRoot root).length := by rw [qValsRoot_length]; exact hpos
    exact List.ne_nil_of_length_pos this
  obtain ⟨m, hmax, hmemm, hbound⟩ := fmaxList_all_fin (qValsRoot root) hqne hallfin
  -- the tie set is nonempty
  obtain ⟨k0, hk0⟩ := List.get?_of_mem hmemm
  obtain ⟨hk0lt, -⟩ := List.get?_eq_some.mp hk0
  have hk0mem : k0 ∈ maxIdxList (qValsRoot root) (F.fin m) := by
    unfold maxIdxList
    rw [List.mem_filter, List.mem_range]
    refine ⟨hk0lt, ?_⟩
    rw [List.getD_eq_getElem?_getD, ← List.get?_eq_getElem?, hk0]
    simp [feq]
  have htiene : maxIdxList (qValsRoot root) (F.fin m) ≠ [] := by
    intro h
    rw [h] at hk0mem
    simp at hk0mem
  obtain ⟨i, st2, hchoice, himem⟩ := choice_nonempty_some htiene stS
  have hpick : pickIdx (qValsRoot root) stS = some (i, st2) := by
    unfold pickIdx
    rw [hmax]
    exact hchoice
  have hiq : i < (qValsRoot root).length := by
    have := himem
    unfold maxIdxList at this
    rw [List.mem_filter, List.mem_range] at this
    exact this.1
  have hi : i < root.numVisitsActions.length := by
    rw [qValsRoot_length] at hiq
    exact hiq
  have hia : i < root.actions.length := by
    rw [hlen1']
    exact hi
  have hgetan : root.actions.get? i = some (root.actions.get ⟨i, hia⟩) :=
    List.get?_eq_get hia
  refine ⟨hstate, hidv, hvisits, i, root.actions.get ⟨i, hia⟩, m, hi, hgetan,
    ?_, ?_, ?_, hmax, himem, ?_⟩
  · -- plan returns exactly this action
    unfold planP
    simp only [hrun, hroot, hpick, hgetan]
  · -- the chosen index has mean m
    have hfeq := himem
    unfold maxIdxList at hfeq
    rw [List.mem_filter] at hfeq
    have := hfeq.2
    rw [List.getD_eq_getElem?_getD, ← List.get?_eq_getElem?, hfinAt i hi] at this
    simpa [feq] using this
  · -- every mean is bounded by m
    intro j hj
    have hjmem : F.fin (root.aValues.getD j 0 /
        ((root.numVisitsActions.getD j 0 : ℕ) : ℚ)) ∈ qValsRoot root :=
      List.get?_mem (hfinAt j hj)
    exact hbound _ hjmem
  · -- every maximal-mean index is reachable under some random source
    intro j hjmem
    exact choice_surjective hjmem stS

/-- A completely fresh planner state (empty table, allocator at `-1`,
as in `Mcts.__init__`). -/
def stInit : McState ℕ ℕ :=
  { table := [], lastId := -1, rng := fun _ => 0, rngIdx := 0 }

/-- Planner over `envC3` asked for zero simulations. -/
def M6z : Mcts ℕ ℕ :=
  { numSim := 0, c := 1, env := envC3, budget := 5, discount := 1,
    rolloutPolicy := fun _ _ => 0, ops := opsD }

/-- C6, counterexample: with `num_sim = 0` (no simulation visits any
root action) `plan` on the fresh planner creates and registers the
root but returns NO action at all — the empirical means are all
`0/0 = NaN`, the maximal-mean tie set is empty and the final
`np.random.choice` raises — contradicting the claim that `plan`
returns a maximal-mean action for every initial state. -/
theorem c6_plan_returns_nothing_unvisited :
    (planP M6z 10 0 stInit).2 = none ∧
    (lookupTable (planP M6z 10 0 stInit).1 0).map (fun nd => nd.state) =
      some 0 ∧
    (lookupTable (planP M6z 10 0 stInit).1 0).map (fun nd => qValsRoot nd) =
      some [F.nan, F.nan] := by
  refine ⟨by decide!, by decide!, by decide!⟩

/-- The root-registered start state of the C6 witness run. -/
def stC6R : McState ℕ ℕ :=
  tableSet { stInit with lastId := stInit.lastId + 1 } (stInit.lastId + 1)
    (mkStateNode MC3.env 0 (stInit.lastId + 1))

/-- The post-simulation state of the C6 witness run. -/
def stC6S : McState ℕ ℕ :=
  (runSimsP MC3 10 (stInit.lastId + 1) MC3.numSim stC6R).1

/-- The root node after the two simulations of the C6 witness run. -/
def rootC6 : StateNode ℕ ℕ :=
  { state := 0, id := 0, actions := [⟨0, [(1, 1)]⟩, ⟨1, [(1, 2)]⟩],
    numVisitsActions := [1, 1], aValues := [5, 3], numVisits := 2 }

/-- C6, witness: the plan theorem applied to the fresh `envC3` planner
with 2 simulations (both root actions visited once; the maximal mean is
5 via action 0). -/
theorem c6_plan_max_mean_witness :
    rootC6.state = 0 ∧ rootC6.id = stInit.lastId + 1 ∧
    rootC6.numVisits = MC3.numSim ∧
    (∃ (i : ℕ) (an : ActionNode ℕ ℕ) (m : ℚ),
      i < rootC6.numVisitsActions.length ∧
      rootC6.actions.get? i = some an ∧
      (planP MC3 10 0 stInit).2 = some an.action ∧
      rootC6.aValues.getD i 0 / ((rootC6.numVisitsActions.getD i 0 : ℕ) : ℚ) = m ∧
      (∀ j, j < rootC6.numVisitsActions.length →
        rootC6.aValues.getD j 0 / ((rootC6.numVisitsActions.getD j 0 : ℕ) : ℚ) ≤ m) ∧
      fmaxList (qValsRoot rootC6) = some (F.fin m) ∧
      i ∈ maxIdxList (qValsRoot rootC6) (F.fin m) ∧
      (∀ j ∈ maxIdxList (qValsRoot rootC6) (F.fin m),
        ∃ st' : McState ℕ ℕ,
          (choice (maxIdxList (qValsRoot rootC6) (F.fin m)) st').map
            (fun p => p.1) = some j)) :=
  planP_returns_max_mean MC3 10 0 stInit stC6S rootC6
    (by decide) (by decide) (by with_unfolding_all rfl)
    (by decide!) (by decide) (by decide)

/-- Planner over `envC3` with a single simulation: one of the two root
actions necessarily stays unvisited. -/
def M7 : Mcts ℕ ℕ :=
  { numSim := 1, c := 1, env := envC3, budget := 5, discount := 1,
    rolloutPolicy := fun _ _ => 0, ops := opsD }

/-- C7: with `num_sim = 1` and two root actions, the never-visited root
action's empirical mean is `0/0 = NaN`; there is no defensive
`-infinity` mapping in `plan`: `np.max` propagates the NaN, the
maximal-mean tie set `np.flatnonzero(q_vals == max)` is empty and
`np.random.choice` of it raises, so `plan` returns no action at all
instead of a well-defined one — the code lacks the defensive handling
the claim (and the spec's `must`) requires. -/
theorem c7_plan_unvisited_mean_crash :
    (lookupTable (planP M7 10 0 stInit).1 0).map
      (fun nd => nd.numVisitsActions) = some [1, 0] ∧
    (lookupTable (planP M7 10 0 stInit).1 0).map
      (fun nd => qValsRoot nd) = some [F.fin 5, F.nan] ∧
    (planP M7 10 0 stInit).2 = none := by
  refine ⟨by decide!, by decide!, by decide!⟩

/-- Degenerate environment whose every state has an EMPTY legal-action
set. -/
def envE : BetterGym ℕ ℕ :=
  { getActions := fun _ => []
    step := fun s _ => (s, 0, true) }

/-- C9, counterexample: creating a `StateNode` for a state with an
empty legal-action set does NOT fail — `StateNode.__init__` performs no
emptiness check and silently produces a node with zero actions and
zero-length statistics arrays. -/
theorem c9_zero_action_node_created :
    envE.getActions 7 = [] ∧
    (mkStateNode envE 7 3).actions = [] ∧
    (mkStateNode envE 7 3).numVisitsActions = [] ∧
    (mkStateNode envE 7 3).aValues = [] ∧
    (mkStateNode envE 7 3).state = 7 ∧
    (mkStateNode envE 7 3).id = 3 := by
  refine ⟨by decide!, by decide!, by decide!, by decide!, by decide!, by decide!⟩

/-- C9 (amended): node creation for a state with an empty legal-action
set succeeds silently, producing a zero-action node; the error surfaces
only later, when a `simulate` traversal reaches such a node and the
UCB selection fails on the empty arrays (`np.max` of a zero-size array
raises), aborting the traversal after the visit increment. -/
theorem zero_action_node_silent_creation [DecidableEq S] (M : Mcts S A)
    (fuel depth : ℕ) (stateId : ℤ) (st : McState S A)
    (env : BetterGym S A) (s : S) (i : ℤ) (node0 : StateNode S A)
    (hemp : env.getActions s = [])
    (h1 : lookupTable st stateId = some node0)
    (h2 : node0.numVisitsActions = []) :
    (mkStateNode env s i).actions = [] ∧
    simulateP M (fuel + 1) stateId depth st = (bumpVisits st stateId, none) := by
  constructor
  · unfold mkStateNode
    rw [hemp]
    rfl
  · have hscores : ucbScoresP M.ops M.c (node0.numVisits + 1)
        node0.numVisitsActions node0.aValues = [] := by
      rw [h2]
      rfl
    have hpick : pickIdx (ucbScoresP M.ops M.c (node0.numVisits + 1)
        node0.numVisitsActions node0.aValues) (bumpVisits st stateId) = none := by
      rw [hscores]
      rfl
    unfold simulateP
    simp only [h1, hpick]

/-- `mcts_v2`-style planner over the zero-action environment. -/
def ME : Mcts ℕ ℕ :=
  { numSim := 1, c := 1, env := envE, budget := 3, discount := 1,
    rolloutPolicy := fun _ _ => 0, ops := opsD }

/-- Planner state holding a zero-action node under id 0. -/
def stE : McState ℕ ℕ :=
  { table := [(0, mkStateNode envE 0 0)], lastId := 0,
    rng := fun _ => 0, rngIdx := 0 }

/-- C9, witness: the amended theorem at the zero-action environment:
creation yields a node without actions and the simulation visiting it
fails at selection. -/
theorem c9_silent_creation_witness :
    (mkStateNode envE 7 3).actions = [] ∧
    simulateP ME 5 0 0 stE = (bumpVisits stE 0, none) :=
  zero_action_node_silent_creation ME 4 0 0 stE envE 7 3
    (mkStateNode envE 0 0) (by decide!) (by with_unfolding_all rfl)
    (by decide!)
